import Mathlib

set_option linter.unusedVariables false

/-! Verification of the behavior tree interpreter of btree.js: the node model,
the tick engine, the parser, the JSON snapshot round trip and the name indexed
status updates. JS numbers are modelled as Int, JS strings as String, the JS
node objects as a tree shaped inductive. -/

/-- Status constant FAILED (btree.js line 4). -/
def FAILED : Int := 0

/-- Status constant SUCCESS (btree.js line 5). -/
def SUCCESS : Int := 1

/-- Status constant RUNNING (btree.js line 6). -/
def RUNNING : Int := 2

/-- Node kinds (btree.js lines 9 to 13). The JS code stores the kind as one of
five fixed strings; the closed enumeration is modelled as an inductive. -/
inductive Kind where
  | fallback
  | sequence
  | parallel
  | action
  | condition
  deriving DecidableEq

/-- String form of a kind, exactly the five strings of btree.js lines 9 to 13,
as interpolated into error messages. -/
def kindStr : Kind → String
  | .fallback => "fallback"
  | .sequence => "sequence"
  | .parallel => "parallel"
  | .action => "action"
  | .condition => "condition"

/-- Record of one activation callback invocation (the JS call c(this) in
Action.setActive, btree.js line 363): which subscribed callback fired, the name
of the action node passed to it, and the value of the active flag the callback
observes on that node at call time. -/
structure Event where
  cb : Nat
  actionName : String
  activeFlag : Bool
  deriving DecidableEq

mutual
/-- Behavior tree node (btree.js class Node, lines 141 to 210, and its
subclasses). Fields mirror the JS object properties in order: name, kind,
children (null or an array), line, the private active flag, wasActive,
nodeStatus, hasNot, successCount (meaningful only on Parallel nodes, btree.js
line 290, default 0 elsewhere) and the actionActivationCallback array
(meaningful only on Action nodes, btree.js line 345, modelled as a list of
opaque callback identifiers, empty elsewhere). -/
inductive Node where
  | mk (name : String) (kind : Kind) (children : Option NodeList) (line : Option Int)
      (active : Bool) (wasActive : Bool) (nodeStatus : Int) (hasNot : Bool)
      (successCount : Int) (callbacks : List Nat) : Node
/-- List of sibling nodes (a JS array of Node). -/
inductive NodeList where
  | nil : NodeList
  | cons (head : Node) (tail : NodeList) : NodeList
end

/-- Name of a node. -/
def Node.name : Node → String
  | .mk v _ _ _ _ _ _ _ _ _ => v

/-- Kind of a node. -/
def Node.kind : Node → Kind
  | .mk _ v _ _ _ _ _ _ _ _ => v

/-- Children of a node; none models the JS null. -/
def Node.children : Node → Option NodeList
  | .mk _ _ v _ _ _ _ _ _ _ => v

/-- Source line of a node, when parsed from text. -/
def Node.line : Node → Option Int
  | .mk _ _ _ v _ _ _ _ _ _ => v

/-- Value of the private active flag (JS property with an underscore). -/
def Node.active : Node → Bool
  | .mk _ _ _ _ v _ _ _ _ _ => v

/-- Value of the wasActive flag. -/
def Node.wasActive : Node → Bool
  | .mk _ _ _ _ _ v _ _ _ _ => v

/-- Raw stored status of the node, before negation is applied. -/
def Node.nodeStatus : Node → Int
  | .mk _ _ _ _ _ _ v _ _ _ => v

/-- Negation flag of the node. -/
def Node.hasNot : Node → Bool
  | .mk _ _ _ _ _ _ _ v _ _ => v

/-- Success threshold of a parallel node. -/
def Node.successCount : Node → Int
  | .mk _ _ _ _ _ _ _ _ v _ => v

/-- Subscribed activation callbacks of an action node. -/
def Node.callbacks : Node → List Nat
  | .mk _ _ _ _ _ _ _ _ _ v => v

/-- Node.setStatus (btree.js lines 172 to 174). -/
def Node.setStatus : Node → Int → Node
  | .mk nm k c l a w _ h sc cb, s => .mk nm k c l a w s h sc cb

/-- Node.setLine (btree.js lines 206 to 209). -/
def Node.setLine : Node → Option Int → Node
  | .mk nm k c _ a w s h sc cb, l => .mk nm k c l a w s h sc cb

/-- Replacement of the children array of a node. -/
def Node.setChildren : Node → Option NodeList → Node
  | .mk nm k _ l a w s h sc cb, c => .mk nm k c l a w s h sc cb

/-- Appending one callback identifier to the actionActivationCallback list
(Action.onActivation, btree.js lines 356 to 358). -/
def Node.pushCallback : Node → Nat → Node
  | .mk nm k c l a w s h sc cb, i => .mk nm k c l a w s h sc (cb ++ [i])

/-- Node.status (btree.js lines 162 to 170): the public status accessor applies
the negation flag by swapping SUCCESS and FAILED; any other stored value falls
through the switch and is returned unchanged. -/
def Node.status (n : Node) : Int :=
  if n.hasNot then
    if n.nodeStatus = SUCCESS then FAILED
    else if n.nodeStatus = FAILED then SUCCESS
    else n.nodeStatus
  else n.nodeStatus

/-- Base class Node.setActive (btree.js lines 180 to 187): records the new
active flag and latches wasActive on a true to false transition. -/
def Node.setActiveBase : Node → Bool → Node
  | .mk nm k c l a w s h sc cb, b => .mk nm k c l b (if a && !b then true else w) s h sc cb

/-- Override Action.setActive (btree.js lines 361 to 364): performs the base
update, then synchronously invokes every subscribed callback once, passing the
node; the callback therefore observes the already updated active flag. -/
def Node.setActiveAction (n : Node) (b : Bool) : Node × List Event :=
  let m := n.setActiveBase b
  (m, m.callbacks.map (fun c => ⟨c, m.name, b⟩))

/-- Dynamic dispatch of setActive: action nodes use the Action override, every
other node uses the base method, which fires no callbacks. -/
def Node.setActiveD (n : Node) (b : Bool) : Node × List Event :=
  if n.kind = .action then n.setActiveAction b else (n.setActiveBase b, [])

/-- List of sibling nodes as a plain Lean list. -/
def NodeList.toList : NodeList → List Node
  | .nil => []
  | .cons c cs => c :: cs.toList

/-- NodeList built from a plain Lean list. -/
def NodeList.ofList : List Node → NodeList
  | [] => .nil
  | c :: cs => .cons c (NodeList.ofList cs)

/-- Length of a node list (the JS children.length). -/
def NodeList.length : NodeList → Nat
  | .nil => 0
  | .cons _ cs => cs.length + 1

/-- JS children.push: appends one node at the end. -/
def NodeList.push : NodeList → Node → NodeList
  | .nil, n => .cons n .nil
  | .cons c cs, n => .cons c (cs.push n)

/-- Index access into a node list. -/
def NodeList.childAt : NodeList → Nat → Option Node
  | .nil, _ => none
  | .cons c _, 0 => some c
  | .cons _ cs, i + 1 => cs.childAt i

/-- Replacement of the node at an index. -/
def NodeList.setChildAt : NodeList → Nat → Node → NodeList
  | .nil, _, _ => .nil
  | .cons _ cs, 0, x => .cons x cs
  | .cons c cs, i + 1, x => .cons c (cs.setChildAt i x)

mutual
/-- One tick of a node: btree.js Node.tick (lines 188 to 191) and the overrides
Fallback.tick (228 to 239), Sequence.tick (258 to 269), Parallel.tick (292 to
317), with Action inheriting the base tick but the overridden setActive.
Returns the updated node, the status the call returns, and the callback
invocations fired during the call, in order. Dispatch follows the kind tag,
which coincides with the JS class for every node the program constructs; a
combinator kind without a children array is never constructed by the program
and falls through to the base tick here. -/
def tickNode : Node → Node × Int × List Event
  | .mk nm .fallback (some cs) l a w s h sc cb =>
      let n1 := Node.setActiveBase (.mk nm .fallback (some cs) l a w s h sc cb) true
      let r := fallbackLoop cs
      let st := match r.2.1 with
        | some v => v
        | none => FAILED
      let n2 := (n1.setChildren (some r.1)).setStatus st
      (n2, n2.status, r.2.2)
  | .mk nm .sequence (some cs) l a w s h sc cb =>
      let n1 := Node.setActiveBase (.mk nm .sequence (some cs) l a w s h sc cb) true
      let r := seqLoop cs
      let st := match r.2.1 with
        | some v => v
        | none => SUCCESS
      let n2 := (n1.setChildren (some r.1)).setStatus st
      (n2, n2.status, r.2.2)
  | .mk nm .parallel (some cs) l a w s h sc cb =>
      let n1 := Node.setActiveBase (.mk nm .parallel (some cs) l a w s h sc cb) true
      let r := parallelLoop cs
      let st := if r.2.1 ≥ sc then SUCCESS
        else if r.2.2.1 > (cs.length : Int) - sc then FAILED
        else RUNNING
      let n2 := (n1.setChildren (some r.1)).setStatus st
      (n2, st, r.2.2.2)
  | .mk nm .action ch l a w s h sc cb =>
      let p := Node.setActiveAction (.mk nm .action ch l a w s h sc cb) true
      (p.1, p.1.status, p.2)
  | n =>
      let m := n.setActiveBase true
      (m, m.status, [])
/-- Loop body of Fallback.tick (btree.js lines 230 to 236): tick children in
order until one returns RUNNING or SUCCESS. Returns the updated children (the
suffix after a short circuit is untouched), the short circuit status when one
occurred, and the callback invocations of the ticked prefix. The intermediate
setStatus calls on the parent are each overwritten by the next one and are
represented by the final status alone. -/
def fallbackLoop : NodeList → NodeList × Option Int × List Event
  | .nil => (.nil, none, [])
  | .cons c cs =>
      let r := tickNode c
      if r.2.1 = RUNNING ∨ r.2.1 = SUCCESS then
        (.cons r.1 cs, some r.2.1, r.2.2)
      else
        let q := fallbackLoop cs
        (.cons r.1 q.1, q.2.1, r.2.2 ++ q.2.2)
/-- Loop body of Sequence.tick (btree.js lines 260 to 266): as fallbackLoop but
short circuiting on RUNNING or FAILED. -/
def seqLoop : NodeList → NodeList × Option Int × List Event
  | .nil => (.nil, none, [])
  | .cons c cs =>
      let r := tickNode c
      if r.2.1 = RUNNING ∨ r.2.1 = FAILED then
        (.cons r.1 cs, some r.2.1, r.2.2)
      else
        let q := seqLoop cs
        (.cons r.1 q.1, q.2.1, r.2.2 ++ q.2.2)
/-- Loop body of Parallel.tick (btree.js lines 299 to 307): ticks every child
unconditionally, counting the SUCCESS results and the FAILED results. -/
def parallelLoop : NodeList → NodeList × Int × Int × List Event
  | .nil => (.nil, 0, 0, [])
  | .cons c cs =>
      let r := tickNode c
      let q := parallelLoop cs
      (.cons r.1 q.1,
       (if r.2.1 = SUCCESS then 1 else 0) + q.2.1,
       (if r.2.1 = FAILED then 1 else 0) + q.2.2.1,
       r.2.2 ++ q.2.2.2)
end

mutual
/-- Node.deactivate (btree.js lines 192 to 199): clears the active flag through
the dispatched setActive (firing the callbacks of action nodes) and recurses
into the children in order. -/
def deactivateNode : Node → Node × List Event
  | .mk nm k ch l a w s h sc cb =>
      let p := Node.setActiveD (.mk nm k ch l a w s h sc cb) false
      match ch with
      | none => p
      | some cs =>
          let q := deactivateList cs
          (p.1.setChildren (some q.1), p.2 ++ q.2)
/-- Deactivation of a list of children, left to right. -/
def deactivateList : NodeList → NodeList × List Event
  | .nil => (.nil, [])
  | .cons c cs =>
      let r := deactivateNode c
      let q := deactivateList cs
      (.cons r.1 q.1, r.2 ++ q.2)
end

/-- Factory fallback (btree.js lines 216 to 218 and constructor 225 to 227). -/
def fallbackNode (children : NodeList) : Node :=
  .mk ("?") .fallback (some children) none false false FAILED false 0 []

/-- Factory sequence (btree.js lines 246 to 248 and constructor 255 to 257);
the display name is the unicode rightwards arrow. -/
def sequenceNode (children : NodeList) : Node :=
  .mk ("→") .sequence (some children) none false false FAILED false 0 []

/-- Factory parallel (btree.js lines 278 to 280 and constructor 288 to 291);
the display name is the unicode rightwards paired arrows. -/
def parallelNode (successCount : Int) (children : NodeList) : Node :=
  .mk ("⇉") .parallel (some children) none false false FAILED false successCount []

/-- Factory action (btree.js lines 330 to 332 and constructor 342 to 350):
children null, optional initial activation callback, initial status defaulting
to RUNNING at every call site that omits it. -/
def actionNode (name : String) (onAct : Option Nat) (status : Int) : Node :=
  .mk name .action none none false false status false 0 onAct.toList

/-- Factory condition (btree.js lines 373 to 375 and constructor 384 to 388):
children null, negation flag as given, initial status defaulting to FAILED at
every call site that omits it. -/
def conditionNode (name : String) (hasNot : Bool) (status : Int) : Node :=
  .mk name .condition none none false false status hasNot 0 []

/-- Updated node produced by one tick. -/
def tickedNode (n : Node) : Node := (tickNode n).1

/-- Status returned by one tick. -/
def tickStatus (n : Node) : Int := (tickNode n).2.1

/-- Callback invocations fired by one tick. -/
def tickEvents (n : Node) : List Event := (tickNode n).2.2

/-- Concatenation of the tick events of a list of nodes, in order. -/
def eventsOfAll (l : List Node) : List Event :=
  l.foldr (fun p acc => tickEvents p ++ acc) []

/-- Sample condition node whose tick returns FAILED, for concrete witnesses. -/
def wCondF : Node := conditionNode ("cond failed") false FAILED

/-- Sample condition node whose tick returns SUCCESS, for concrete witnesses. -/
def wCondS : Node := conditionNode ("cond ok") false SUCCESS

/-- Sample action node whose tick returns RUNNING, for concrete witnesses. -/
def wActR : Node := actionNode ("act running") none RUNNING

/-- Sample fallback node with three children, for the C2 witness. -/
def wFallback3 : Node := fallbackNode (NodeList.ofList [wCondF, wCondS, wActR])

/-- Sample sequence node with three children, for the C3 witness. -/
def wSequence3 : Node := sequenceNode (NodeList.ofList [wCondS, wCondF, wActR])

/-- Sample parallel node with threshold two and three children, for the C4
witness. -/
def wParallel3 : Node := parallelNode 2 (NodeList.ofList [wCondS, wCondF, wActR])


mutual
/-- Preorder list of the action nodes of a tree (the nodes the Action override
of setActive fires callbacks for). -/
def actionsOf : Node → List Node
  | .mk nm k ch l a w s h sc cb =>
      (if k = .action then [Node.mk nm k ch l a w s h sc cb] else []) ++
      (match ch with
       | none => []
       | some cs => actionsOfList cs)
/-- Preorder action nodes of a list of siblings. -/
def actionsOfList : NodeList → List Node
  | .nil => []
  | .cons c cs => actionsOf c ++ actionsOfList cs
end


/-- Single quote character as a string, for assembling the error messages of
btree.js that contain quotes. -/
def sqc : String := ⟨[Char.ofNat 39]⟩

/-- Message builder expect (btree.js lines 15 to 17). -/
def expectMsg (what ha : String) : String :=
  "Expecting " ++ sqc ++ what ++ sqc ++ ", have " ++ sqc ++ ha ++ sqc

/-- Error message of btree.js line 725. -/
def notOperatorMsg : String := "Not operator can only be applied to conditions"

/-- Error message of btree.js line 589. -/
def moreThanOneRootMsg (name : String) : String :=
  "More than one root node or node " ++ sqc ++ name ++ sqc ++ " has wrong indentation."

/-- Error message of btree.js line 594. -/
def noParentMsg (name : String) : String :=
  name ++ " node has no parent (wrong indentation level)"

/-- Error message of btree.js line 600. -/
def leafChildMsg (k : Kind) : String :=
  kindStr k ++ " node can" ++ sqc ++ "t have child nodes"

/-- Error message of btree.js line 98. -/
def expectNumberMsg : String := "Expecting number after parallel node."

/-- Error message of btree.js line 102. -/
def parallelZeroMsg : String := "Parallel node must allow at least one child."

/-- Error message of btree.js line 731. -/
def emptyTreeMsg : String := "Tree must have at least one node but has none"

/-- Error message of btree.js line 720. -/
def defaultErrMsg (ch : Char) : String :=
  "Expecting " ++ sqc ++ "|" ++ sqc ++ ", " ++ sqc ++ "-" ++ sqc ++ ", " ++ sqc ++ "!" ++ sqc ++
  ", " ++ sqc ++ "[" ++ sqc ++ ", or " ++ sqc ++ "(" ++ sqc ++ " but have " ++ sqc ++
  String.mk [ch] ++ sqc

/-- Trimming of surrounding whitespace (the JS String.trim applied to condition
and action names). -/
def trimChars (cs : List Char) : List Char :=
  ((cs.dropWhile Char.isWhitespace).reverse.dropWhile Char.isWhitespace).reverse

/-- Splitting of the input at the first occurrence of a closing character:
returns the characters before it and the rest after it, or none when the
character never occurs. -/
def takeUntil (close : Char) : List Char → Option (List Char × List Char)
  | [] => none
  | c :: rest =>
      if c = close then some ([], rest)
      else
        match takeUntil close rest with
        | none => none
        | some p => some (c :: p.1, p.2)

/-- parseCondition (btree.js lines 45 to 57): consumes up to the closing
parenthesis and returns the rest of the input, the trimmed interior text and no
error; at end of input without a closing parenthesis everything is consumed and
the EOF error is reported. -/
def parseConditionTok (cs : List Char) : List Char × String × Option String :=
  match takeUntil ( ')' ) cs with
  | some p => (p.2, String.mk (trimChars p.1), none)
  | none => ([], String.mk cs, some (expectMsg (")") ("EOF")))

/-- parseAction (btree.js lines 65 to 77): as parseConditionTok with the
closing square bracket. -/
def parseActionTok (cs : List Char) : List Char × String × Option String :=
  match takeUntil ( ']' ) cs with
  | some p => (p.2, String.mk (trimChars p.1), none)
  | none => ([], String.mk cs, some (expectMsg ("]") ("EOF")))

/-- parseSequence (btree.js lines 25 to 37): expects the closing angle of the
arrow token. -/
def parseSequenceTok : List Char → List Char × Option String
  | [] => ([], some (expectMsg (">") ("EOF")))
  | c :: rest =>
      if c = '>' then (rest, none)
      else (c :: rest, some (expectMsg (">") (String.mk [c])))

/-- parseParallel (btree.js lines 85 to 105): reads the digit run after the
equals sign; an empty run or the threshold zero is an error. -/
def parseParallelTok (cs : List Char) : Int × List Char × Option String :=
  let digits := cs.takeWhile Char.isDigit
  let rest := cs.dropWhile Char.isDigit
  if digits.isEmpty then (0, rest, some expectNumberMsg)
  else
    let num : Nat := digits.foldl (fun a c => 10 * a + (c.toNat - 48)) 0
    if num = 0 then (0, rest, some parallelZeroMsg)
    else ((num : Int), rest, none)

/-- parseComment (btree.js lines 113 to 138): demands a second semicolon, then
consumes the comment text up to but not including the end of the line; the text
itself is discarded by the parser. -/
def parseCommentTok : List Char → List Char × Option String
  | [] => ([], some (expectMsg (";") ("EOF")))
  | c :: rest =>
      if c = ';' then (rest.dropWhile (fun x => !((x == '\n') || (x == '\r'))), none)
      else (c :: rest, some (expectMsg (";;") (String.mk [c])))

/-- Node stored at a path of child indices below a root. -/
def getAtPath : Node → List Nat → Option Node
  | n, [] => some n
  | n, i :: p =>
      match n.children with
      | none => none
      | some cs =>
          match cs.childAt i with
          | none => none
          | some c => getAtPath c p

/-- Update of the node stored at a path of child indices below a root; an
invalid path leaves the tree unchanged (the parser only stores valid paths). -/
def updateAtPath : Node → List Nat → (Node → Node) → Node
  | n, [], f => f n
  | n, i :: p, f =>
      match n.children with
      | none => n
      | some cs =>
          match cs.childAt i with
          | none => n
          | some c => n.setChildren (some (cs.setChildAt i (updateAtPath c p f)))

/-- The JS parent.children.push(node) performed through a path to the parent
(btree.js line 597); paths are the pure counterpart of the node references the
JS parser keeps in its nodes array. -/
def appendChildAt (t : Node) (p : List Nat) (c : Node) : Node :=
  updateAtPath t p (fun parent =>
    match parent.children with
    | none => parent
    | some cs => parent.setChildren (some (cs.push c)))

mutual
/-- Preorder walk collecting the (name, path) registration events that
extractActionsAndConditions (btree.js lines 440 to 449) performs for the nodes
of the given kind: the node itself is registered before its children, children
left to right. -/
def kindEntries (k0 : Kind) : Node → List Nat → List (String × List Nat)
  | .mk nm k ch l a w s h sc cb, p =>
      (if k = k0 then [(nm, p)] else []) ++
      (match ch with
       | none => []
       | some cs => kindEntriesList k0 cs p 0)
/-- Registration events of a list of siblings, left to right, with running
child indices. -/
def kindEntriesList (k0 : Kind) : NodeList → List Nat → Nat → List (String × List Nat)
  | .nil, _, _ => []
  | .cons c cs, p, i => kindEntries k0 c (p ++ [i]) ++ kindEntriesList k0 cs p (i + 1)
end

/-- addToArrayMap (btree.js lines 744 to 750): append the value to the list of
an existing key, else add a new singleton entry at the end; insertion order of
keys is preserved as in a JS Map. -/
def addToArrayMap (m : List (String × List (List Nat))) (k : String) (v : List Nat) :
    List (String × List (List Nat)) :=
  if (m.lookup k).isSome then
    m.map (fun e => if e.1 = k then (e.1, e.2 ++ [v]) else e)
  else m ++ [(k, [v])]

/-- Name indexed map built by replaying the registration events through
addToArrayMap, exactly as the walk of extractActionsAndConditions does. -/
def buildMap (entries : List (String × List Nat)) : List (String × List (List Nat)) :=
  entries.foldl (fun m e => addToArrayMap m e.1 e.2) []

/-- Identifier of the tree level aggregate activation callback
onAnyActionActivation that the BehaviorTree constructor subscribes to every
action node (btree.js line 421). -/
def treeCallbackId : Nat := 0

mutual
/-- Subscription of the tree level aggregate callback to every action node of
the tree (btree.js line 421; the JS iterates over the registered actions map,
whose members are exactly the action nodes of the tree). -/
def subscribeAllNode : Node → Node
  | .mk nm k ch l a w s h sc cb =>
      .mk nm k
        (match ch with
         | none => none
         | some cs => some (subscribeAllList cs)) l a w s h
        sc (if k = .action then cb ++ [treeCallbackId] else cb)
/-- Subscription over a list of siblings. -/
def subscribeAllList : NodeList → NodeList
  | .nil => .nil
  | .cons c cs => .cons (subscribeAllNode c) (subscribeAllList cs)
end

/-- BehaviorTree (btree.js lines 391 to 423): the root (absent after a failed
parse), the name indexed registries of condition and action nodes (lists of
paths into the root, the pure counterpart of the JS lists of node references),
the error line and message, and the numeric tree identifier (initially 0). -/
structure BehaviorTree where
  root : Option Node
  conditions : List (String × List (List Nat))
  actions : List (String × List (List Nat))
  line : Option Int
  error : Option String
  id : Nat

/-- Constructor of BehaviorTree (btree.js lines 399 to 423): extracts the
condition and action registries from the root when present, then subscribes
the aggregate activation callback to every action node. -/
def mkTree (root : Option Node) (line : Option Int) (err : Option String) : BehaviorTree :=
  { root := root.map subscribeAllNode,
    conditions :=
      match root with
      | some r => buildMap (kindEntries .condition r [])
      | none => [],
    actions :=
      match root with
      | some r => buildMap (kindEntries .action r [])
      | none => [],
    line := line,
    error := err,
    id := 0 }

/-- BehaviorTree.tick (btree.js lines 562 to 566): tick the root when present;
the fired callback invocations are returned alongside. -/
def treeTick (bt : BehaviorTree) : BehaviorTree × List Event :=
  match bt.root with
  | some r =>
      let t := tickNode r
      ({ bt with root := some t.1 }, t.2.2)
  | none => (bt, [])

/-- BehaviorTree.setConditionStatus (btree.js lines 456 to 460): when the name
is registered, apply setStatus to every registered condition node (through its
path); otherwise do nothing. -/
def BehaviorTree.setConditionStatus (bt : BehaviorTree) (name : String) (status : Int) :
    BehaviorTree :=
  match bt.conditions.lookup name with
  | none => bt
  | some paths =>
      let upd := fun r => paths.foldl (fun t p => updateAtPath t p (fun c => c.setStatus status)) r
      { bt with root := bt.root.map upd }

/-- BehaviorTree.getConditionStatus (btree.js lines 467 to 474): the status of
the first registered condition node of that name, or the sentinel for an
unknown name; the inner fallbacks are unreachable because the registry only
holds nonempty path lists that are valid in the root. -/
def BehaviorTree.getConditionStatus (bt : BehaviorTree) (name : String) : Int :=
  match bt.conditions.lookup name with
  | some paths =>
      match bt.root, paths with
      | some r, p :: _ =>
          match getAtPath r p with
          | some c => c.status
          | none => -1
      | _, _ => -1
  | none => -1

/-- BehaviorTree.setActionStatus (btree.js lines 481 to 485). -/
def BehaviorTree.setActionStatus (bt : BehaviorTree) (name : String) (status : Int) :
    BehaviorTree :=
  match bt.actions.lookup name with
  | none => bt
  | some paths =>
      let upd := fun r => paths.foldl (fun t p => updateAtPath t p (fun c => c.setStatus status)) r
      { bt with root := bt.root.map upd }

/-- BehaviorTree.getActionStatus (btree.js lines 492 to 499). -/
def BehaviorTree.getActionStatus (bt : BehaviorTree) (name : String) : Int :=
  match bt.actions.lookup name with
  | some paths =>
      match bt.root, paths with
      | some r, p :: _ =>
          match getAtPath r p with
          | some c => c.status
          | none => -1
      | _, _ => -1
  | none => -1

/-- Parser state of the parse loop (btree.js lines 575 to 581): the current
indentation, the 1 based line counter, the pending negation flag, the nodes
array (per depth, the path of the most recently placed node at that depth) and
the tree under construction (the node the JS keeps in nodes[0]). -/
structure ParseSt where
  indent : Nat
  line : Nat
  notPending : Bool
  slots : List (Option (List Nat))
  root : Option Node

/-- Read of the JS nodes array at a depth; absent entries are the JS undefined. -/
def slotGet (sl : List (Option (List Nat))) (d : Nat) : Option (List Nat) :=
  sl.getD d none

/-- Write of the JS nodes array at a depth, growing the array as JS assignment
does. -/
def slotSet (sl : List (Option (List Nat))) (d : Nat) (v : Option (List Nat)) :
    List (Option (List Nat)) :=
  let sl2 := if sl.length ≤ d then sl ++ List.replicate (d + 1 - sl.length) none else sl
  sl2.set d v

/-- pushNode (btree.js lines 587 to 607): place a new node at the current
indentation, either as the single root or as the next child of the node one
level up, record it in the nodes array and bump the indentation so that a
further node on the same line nests one level deeper. The inner fallback arms
that return the no parent error for an unresolvable path are unreachable: the
nodes array only ever holds valid paths of live nodes. -/
def pushNode (st : ParseSt) (node : Node) : Except String ParseSt :=
  if st.indent = 0 then
    if st.root.isSome then
      .error (moreThanOneRootMsg node.name)
    else
      .ok { st with root := some node, slots := slotSet st.slots 0 (some []),
                    indent := st.indent + 1 }
  else
    match slotGet st.slots (st.indent - 1) with
    | none => .error (noParentMsg node.name)
    | some ppath =>
        match st.root with
        | none => .error (noParentMsg node.name)
        | some r =>
            match getAtPath r ppath with
            | none => .error (noParentMsg node.name)
            | some parent =>
                match parent.children with
                | none => .error (leafChildMsg parent.kind)
                | some pcs =>
                    .ok { st with
                      root := some (appendChildAt r ppath node),
                      slots := slotSet st.slots st.indent (some (ppath ++ [pcs.length])),
                      indent := st.indent + 1 }

/-- Error result of the parser (onError, btree.js lines 609 to 611): a tree
with no root, the current line and the message. -/
def onErrorBT (line : Nat) (err : String) : BehaviorTree :=
  mkTree none (some (line : Int)) (some err)

/-- Message of the fuel exhaustion arm of the parse loop; the arm is
unreachable because the loop consumes at least one character per iteration and
parse supplies more fuel than there are characters. -/
def fuelMsg : String := "internal: character budget exhausted"

/-- The parse loop of btree.js lines 613 to 735, one iteration per consumed
character, structured over an explicit character budget so that every run
provably terminates; the budget never runs out under the initial budget that
parse supplies. After the switch on the character, an iteration that did not
just set the pending negation flag fails when a negation is still pending
(btree.js lines 724 to 727); this check is the step function below, applied in
every arm except the one that sets the flag. -/
def parseLoop : Nat → ParseSt → List Char → BehaviorTree
  | _, st, [] =>
      match st.root with
      | none => onErrorBT st.line emptyTreeMsg
      | some r => mkTree (some r) (some (st.line : Int)) none
  | 0, st, _ :: _ => onErrorBT st.line fuelMsg
  | fuel + 1, st, ch :: rest =>
      let step := fun (st2 : ParseSt) (rest2 : List Char) =>
        if st2.notPending then onErrorBT st2.line notOperatorMsg
        else parseLoop fuel st2 rest2
      match ch with
      | ' ' => step st rest
      | '\t' => step st rest
      | '\r' =>
          match rest with
          | '\n' :: rest2 => step { st with line := st.line + 1, indent := 0 } rest2
          | _ => step { st with line := st.line + 1, indent := 0 } rest
      | '\n' => step { st with line := st.line + 1, indent := 0 } rest
      | '|' => step { st with indent := st.indent + 1 } rest
      | '!' =>
          if st.notPending then
            step { st with notPending := false } rest
          else
            parseLoop fuel { st with notPending := true } rest
      | '=' =>
          let r := parseParallelTok rest
          match r.2.2 with
          | some e => onErrorBT st.line e
          | none =>
              match pushNode st ((parallelNode r.1 .nil).setLine (some (st.line : Int))) with
              | .error e => onErrorBT st.line e
              | .ok st2 => step st2 r.2.1
      | '?' =>
          match pushNode st ((fallbackNode .nil).setLine (some (st.line : Int))) with
          | .error e => onErrorBT st.line e
          | .ok st2 => step st2 rest
      | '-' =>
          let r := parseSequenceTok rest
          match r.2 with
          | some e => onErrorBT st.line e
          | none =>
              match pushNode st ((sequenceNode .nil).setLine (some (st.line : Int))) with
              | .error e => onErrorBT st.line e
              | .ok st2 => step st2 r.1
      | '(' =>
          let r := parseConditionTok rest
          match r.2.2 with
          | some e => onErrorBT st.line e
          | none =>
              let c := (conditionNode r.2.1 st.notPending FAILED).setLine (some (st.line : Int))
              let st1 := { st with notPending := false }
              match pushNode st1 c with
              | .error e => onErrorBT st1.line e
              | .ok st2 => step st2 r.1
      | '[' =>
          let r := parseActionTok rest
          match r.2.2 with
          | some e => onErrorBT st.line e
          | none =>
              match pushNode st ((actionNode r.2.1 none RUNNING).setLine (some (st.line : Int))) with
              | .error e => onErrorBT st.line e
              | .ok st2 => step st2 r.1
      | ';' =>
          let r := parseCommentTok rest
          match r.2 with
          | some e => onErrorBT st.line e
          | none => step st r.1
      | other => onErrorBT st.line (defaultErrMsg other)

/-- Initial parser state (btree.js lines 575 to 581). -/
def parseInit : ParseSt :=
  { indent := 0, line := 1, notPending := false, slots := [none], root := none }

/-- The parser (btree.js lines 574 to 736), over the characters of the input. -/
def parse (buf : List Char) : BehaviorTree :=
  parseLoop (buf.length + 1) parseInit buf

mutual
/-- JSON snapshot of a node, with the own enumerable fields JSON.stringify
emits for a node object: name, kind, children (null or an array of snapshots),
line, the active flag, wasActive, nodeStatus, hasNot, successCount, and the
serialized callback array of an action node, which is a run of JSON nulls
carrying only its length. -/
inductive NodeJson where
  | mk (name : String) (kind : Kind) (children : Option NodeJsonList) (line : Option Int)
      (active : Bool) (wasActive : Bool) (nodeStatus : Int) (hasNot : Bool)
      (successCount : Int) (callbackCount : Nat) : NodeJson
/-- List of child snapshots. -/
inductive NodeJsonList where
  | nil : NodeJsonList
  | cons (head : NodeJson) (tail : NodeJsonList) : NodeJsonList
end

mutual
/-- Serialization of a node to its JSON snapshot (the JSON.stringify view of
the node object). -/
def nodeToJson : Node → NodeJson
  | .mk nm k ch l a w s h sc cb =>
      .mk nm k
        (match ch with
         | none => none
         | some cs => some (nodeListToJson cs)) l a w s h sc cb.length
/-- Serialization of a list of children. -/
def nodeListToJson : NodeList → NodeJsonList
  | .nil => .nil
  | .cons c cs => .cons (nodeToJson c) (nodeListToJson cs)
end

mutual
/-- BehaviorTree.nodeFromJson (btree.js lines 523 to 552): rebuild a node from
its snapshot through the factory of its kind (restoring the status of leaves,
the threshold of parallels and the negation of conditions, while combinator
statuses, active flags, wasActive and callbacks are not restored), set the
line, then rebuild the children when the snapshot has any. The unknown kind
throw of the JS cannot arise here because the snapshot kind is the closed
enumeration. -/
def nodeFromJson : NodeJson → Node
  | .mk nm k ch l a w s h sc cbn =>
      let base : Node :=
        match k with
        | .fallback => fallbackNode .nil
        | .sequence => sequenceNode .nil
        | .parallel => parallelNode sc .nil
        | .action => actionNode nm none s
        | .condition => conditionNode nm h s
      let base2 := base.setLine l
      match ch with
      | none => base2
      | some cs => base2.setChildren (some (nodeListFromJson cs))
/-- Rebuild of a list of children. -/
def nodeListFromJson : NodeJsonList → NodeList
  | .nil => .nil
  | .cons c cs => .cons (nodeFromJson c) (nodeListFromJson cs)
end

/-- JSON snapshot of a whole tree: the root snapshot with the top level line
and error; the remaining JSON.stringify output of a BehaviorTree (the two
registries, which stringify as empty objects, the identifier 0 and the
serialized callback fields) is identical for any two trees with equal roots and
is omitted. -/
structure TreeJson where
  root : Option NodeJson
  line : Option Int
  error : Option String

/-- Serialization of a tree (JSON.stringify of the BehaviorTree). -/
def treeToJson (bt : BehaviorTree) : TreeJson :=
  { root := bt.root.map nodeToJson, line := bt.line, error := bt.error }

/-- BehaviorTree.fromJson (btree.js lines 514 to 517): rebuild the root from
the snapshot and pass it through the BehaviorTree constructor together with the
stored line and error. -/
def treeFromJson (tj : TreeJson) : BehaviorTree :=
  mkTree (tj.root.map nodeFromJson) tj.line tj.error

mutual
/-- Normal form a node snapshot rebuild produces: the round trip
nodeFromJson after nodeToJson, written directly as a tree map. It keeps the
shape, names of leaves, lines, leaf statuses, negation of conditions and
parallel thresholds, and resets active, wasActive, callbacks, combinator
statuses and combinator display names to the factory state. -/
def stripNode : Node → Node
  | .mk nm k ch l a w s h sc cb =>
      let base : Node :=
        match k with
        | .fallback => fallbackNode .nil
        | .sequence => sequenceNode .nil
        | .parallel => parallelNode sc .nil
        | .action => actionNode nm none s
        | .condition => conditionNode nm h s
      let base2 := base.setLine l
      match ch with
      | none => base2
      | some cs => base2.setChildren (some (stripList cs))
/-- Normal form of a list of children. -/
def stripList : NodeList → NodeList
  | .nil => .nil
  | .cons c cs => .cons (stripNode c) (stripList cs)
end

mutual
/-- Specification side description of a name indexed status update: set the
stored status of every node of the given kind bearing the given name, leaving
everything else unchanged. -/
def kindSetAll (k0 : Kind) (name : String) (status : Int) : Node → Node
  | .mk nm k ch l a w s h sc cb =>
      .mk nm k
        (match ch with
         | none => none
         | some cs => some (kindSetAllList k0 name status cs)) l a w
        (if k = k0 ∧ nm = name then status else s) h sc cb
/-- Specification side update of a list of siblings. -/
def kindSetAllList (k0 : Kind) (name : String) (status : Int) : NodeList → NodeList
  | .nil => .nil
  | .cons c cs => .cons (kindSetAll k0 name status c) (kindSetAllList k0 name status cs)
end

/-- Concatenation of sibling lists. -/
def NodeList.appendL : NodeList → NodeList → NodeList
  | .nil, ys => ys
  | .cons x xs, ys => .cons x (xs.appendL ys)

/-- Replay of a list of registered paths through the per node setStatus, as the
forEach of the status setters does. -/
def applyStatusPaths (status : Int) (ps : List (List Nat)) (t : Node) : Node :=
  ps.foldl (fun t p => updateAtPath t p (fun c => c.setStatus status)) t

/-- Paths of the registration events bearing a given name, in registration
order. -/
def pathsFilter (name : String) (entries : List (String × List Nat)) : List (List Nat) :=
  (entries.filter (fun e => e.1 == name)).map (fun e => e.2)


/-- Sample parser input for the name indexed registry witness. -/
def wParseBuf : List Char := '?' :: '\n' :: '|' :: '(' :: 'a' :: ')' :: '\n' :: '|' :: '[' :: 'b' :: [ ']' ]

/-- Root the sample input parses to (the fallback with one condition and one
action child, the action already carrying the aggregate subscription). -/
def wParseRoot : Node :=
  Node.mk ("?") .fallback
    (some (.cons (Node.mk ("a") .condition none (some 2) false false 0 false 0 [])
      (.cons (Node.mk ("b") .action none (some 3) false false 2 false 0 [0]) .nil)))
    (some 1) false false 0 false 0 []


theorem fallbackLoop_prefix (pre : List Node) (c : Node) (post : List Node)
    (hpre : ∀ p ∈ pre, tickStatus p = FAILED)
    (hc : tickStatus c = SUCCESS ∨ tickStatus c = RUNNING) :
    fallbackLoop (NodeList.ofList (pre ++ c :: post)) =
      (NodeList.ofList (pre.map tickedNode ++ tickedNode c :: post), some (tickStatus c),
       eventsOfAll pre ++ tickEvents c) := by
  induction pre with
  | nil =>
      have hcond : (tickNode c).2.1 = RUNNING ∨ (tickNode c).2.1 = SUCCESS := by
        rcases hc with h | h
        · exact Or.inr h
        · exact Or.inl h
      simp [NodeList.ofList, fallbackLoop, hcond, tickedNode, tickStatus, tickEvents, eventsOfAll]
  | cons p pre ih =>
      have hp : (tickNode p).2.1 = FAILED := hpre p (by simp)
      have hpre' : ∀ q ∈ pre, tickStatus q = FAILED := fun q hq => hpre q (by simp [hq])
      have hcond : ¬ ((tickNode p).2.1 = RUNNING ∨ (tickNode p).2.1 = SUCCESS) := by
        simp [hp, FAILED, RUNNING, SUCCESS]
      have ihx := ih hpre'
      simp only [List.cons_append, NodeList.ofList, fallbackLoop, List.append_eq]
      rw [if_neg hcond, ihx]
      simp [tickedNode, tickEvents, eventsOfAll, NodeList.ofList]

theorem fallbackLoop_allFailed (cs : List Node)
    (hcs : ∀ c ∈ cs, tickStatus c = FAILED) :
    fallbackLoop (NodeList.ofList cs) =
      (NodeList.ofList (cs.map tickedNode), none, eventsOfAll cs) := by
  induction cs with
  | nil => simp [NodeList.ofList, fallbackLoop, eventsOfAll]
  | cons c cs ih =>
      have hc : (tickNode c).2.1 = FAILED := hcs c (by simp)
      have hcond : ¬ ((tickNode c).2.1 = RUNNING ∨ (tickNode c).2.1 = SUCCESS) := by
        simp [hc, FAILED, RUNNING, SUCCESS]
      simp only [NodeList.ofList, fallbackLoop]
      rw [if_neg hcond, ih (fun q hq => hcs q (by simp [hq]))]
      simp [tickedNode, tickEvents, eventsOfAll, NodeList.ofList]

/-- C2: for every Fallback node, tick visits the children in declaration order
and stops at the first child whose tick result is SUCCESS or RUNNING; the
status of the Fallback becomes that result, and the children after the short
circuit are left untouched (hence stay inactive for the cycle); with zero
children or all children FAILED the status is FAILED. -/
theorem fallback_tick_spec (n : Node) (cs : List Node)
    (hk : n.kind = .fallback) (hc : n.children = some (NodeList.ofList cs))
    (hn : n.hasNot = false) :
    ((∀ c ∈ cs, tickStatus c = FAILED) →
        tickStatus n = FAILED ∧ (tickedNode n).nodeStatus = FAILED ∧
        (tickedNode n).active = true ∧
        (tickedNode n).children = some (NodeList.ofList (cs.map tickedNode))) ∧
    (∀ pre c post, cs = pre ++ c :: post →
        (∀ p ∈ pre, tickStatus p = FAILED) →
        (tickStatus c = SUCCESS ∨ tickStatus c = RUNNING) →
        tickStatus n = tickStatus c ∧ (tickedNode n).nodeStatus = tickStatus c ∧
        (tickedNode n).active = true ∧
        (tickedNode n).children =
          some (NodeList.ofList (pre.map tickedNode ++ tickedNode c :: post))) := by
  cases n with
  | mk nm k ch l a w s h sc cb =>
    simp only [Node.kind] at hk
    simp only [Node.children] at hc
    simp only [Node.hasNot] at hn
    subst hk hc hn
    constructor
    · intro hall
      rw [tickStatus, tickedNode, tickNode, fallbackLoop_allFailed cs hall]
      simp [Node.setActiveBase, Node.setChildren, Node.setStatus, Node.status,
        Node.nodeStatus, Node.hasNot, Node.active, Node.children]
    · intro pre c post hsplit hpre hcs
      subst hsplit
      rw [tickStatus, tickedNode, tickNode, fallbackLoop_prefix pre c post hpre hcs]
      simp [Node.setActiveBase, Node.setChildren, Node.setStatus, Node.status,
        Node.nodeStatus, Node.hasNot, Node.active, Node.children]

theorem NodeList.length_ofList (cs : List Node) :
    (NodeList.ofList cs).length = cs.length := by
  induction cs with
  | nil => rfl
  | cons c cs ih => simp [NodeList.ofList, NodeList.length, ih]

theorem seqLoop_prefix (pre : List Node) (c : Node) (post : List Node)
    (hpre : ∀ p ∈ pre, tickStatus p = SUCCESS)
    (hc : tickStatus c = RUNNING ∨ tickStatus c = FAILED) :
    seqLoop (NodeList.ofList (pre ++ c :: post)) =
      (NodeList.ofList (pre.map tickedNode ++ tickedNode c :: post), some (tickStatus c),
       eventsOfAll pre ++ tickEvents c) := by
  induction pre with
  | nil =>
      have hcond : (tickNode c).2.1 = RUNNING ∨ (tickNode c).2.1 = FAILED := hc
      simp [NodeList.ofList, seqLoop, hcond, tickedNode, tickStatus, tickEvents, eventsOfAll]
  | cons p pre ih =>
      have hp : (tickNode p).2.1 = SUCCESS := hpre p (by simp)
      have hpre' : ∀ q ∈ pre, tickStatus q = SUCCESS := fun q hq => hpre q (by simp [hq])
      have hcond : ¬ ((tickNode p).2.1 = RUNNING ∨ (tickNode p).2.1 = FAILED) := by
        simp [hp, FAILED, RUNNING, SUCCESS]
      have ihx := ih hpre'
      simp only [List.cons_append, NodeList.ofList, seqLoop, List.append_eq]
      rw [if_neg hcond, ihx]
      simp [tickedNode, tickEvents, eventsOfAll, NodeList.ofList]

theorem seqLoop_allSuccess (cs : List Node)
    (hcs : ∀ c ∈ cs, tickStatus c = SUCCESS) :
    seqLoop (NodeList.ofList cs) =
      (NodeList.ofList (cs.map tickedNode), none, eventsOfAll cs) := by
  induction cs with
  | nil => simp [NodeList.ofList, seqLoop, eventsOfAll]
  | cons c cs ih =>
      have hc : (tickNode c).2.1 = SUCCESS := hcs c (by simp)
      have hcond : ¬ ((tickNode c).2.1 = RUNNING ∨ (tickNode c).2.1 = FAILED) := by
        simp [hc, FAILED, RUNNING, SUCCESS]
      simp only [NodeList.ofList, seqLoop]
      rw [if_neg hcond, ih (fun q hq => hcs q (by simp [hq]))]
      simp [tickedNode, tickEvents, eventsOfAll, NodeList.ofList]

/-- C3: for every Sequence node, tick visits the children in declaration order
and stops at the first child whose tick result is RUNNING or FAILED; the status
of the Sequence becomes that result, and the children after the short circuit
are left untouched; with zero children or all children SUCCESS the status is
SUCCESS. -/
theorem sequence_tick_spec (n : Node) (cs : List Node)
    (hk : n.kind = .sequence) (hc : n.children = some (NodeList.ofList cs))
    (hn : n.hasNot = false) :
    ((∀ c ∈ cs, tickStatus c = SUCCESS) →
        tickStatus n = SUCCESS ∧ (tickedNode n).nodeStatus = SUCCESS ∧
        (tickedNode n).active = true ∧
        (tickedNode n).children = some (NodeList.ofList (cs.map tickedNode))) ∧
    (∀ pre c post, cs = pre ++ c :: post →
        (∀ p ∈ pre, tickStatus p = SUCCESS) →
        (tickStatus c = RUNNING ∨ tickStatus c = FAILED) →
        tickStatus n = tickStatus c ∧ (tickedNode n).nodeStatus = tickStatus c ∧
        (tickedNode n).active = true ∧
        (tickedNode n).children =
          some (NodeList.ofList (pre.map tickedNode ++ tickedNode c :: post))) := by
  cases n with
  | mk nm k ch l a w s h sc cb =>
    simp only [Node.kind] at hk
    simp only [Node.children] at hc
    simp only [Node.hasNot] at hn
    subst hk hc hn
    constructor
    · intro hall
      rw [tickStatus, tickedNode, tickNode, seqLoop_allSuccess cs hall]
      simp [Node.setActiveBase, Node.setChildren, Node.setStatus, Node.status,
        Node.nodeStatus, Node.hasNot, Node.active, Node.children]
    · intro pre c post hsplit hpre hcs
      subst hsplit
      rw [tickStatus, tickedNode, tickNode, seqLoop_prefix pre c post hpre hcs]
      simp [Node.setActiveBase, Node.setChildren, Node.setStatus, Node.status,
        Node.nodeStatus, Node.hasNot, Node.active, Node.children]

theorem parallelLoop_ofList (cs : List Node) :
    parallelLoop (NodeList.ofList cs) =
      (NodeList.ofList (cs.map tickedNode),
       ((cs.countP (fun c => tickStatus c == SUCCESS) : Nat) : Int),
       ((cs.countP (fun c => tickStatus c == FAILED) : Nat) : Int),
       eventsOfAll cs) := by
  induction cs with
  | nil => simp [NodeList.ofList, parallelLoop, eventsOfAll]
  | cons c cs ih =>
      simp only [NodeList.ofList, parallelLoop, ih, List.map_cons, List.countP_cons,
        eventsOfAll, List.foldr_cons, Prod.mk.injEq]
      refine ⟨rfl, ?_, ?_, rfl⟩
      · simp only [tickStatus, beq_iff_eq]
        push_cast
        split_ifs <;> omega
      · simp only [tickStatus, beq_iff_eq]
        push_cast
        split_ifs <;> omega

/-- C4: for every Parallel node with threshold T, tick unconditionally ticks
all children (no short circuit), counts the SUCCESS and FAILED results, and the
status is SUCCESS when succeeded is at least T, else FAILED when failed exceeds
the child count minus T, else RUNNING; with zero children and T at least one
the status is always FAILED. -/
theorem parallel_tick_spec (n : Node) (cs : List Node)
    (hk : n.kind = .parallel) (hc : n.children = some (NodeList.ofList cs)) :
    tickStatus n =
      (if ((cs.countP (fun c => tickStatus c == SUCCESS) : Nat) : Int) ≥ n.successCount
         then SUCCESS
       else if ((cs.countP (fun c => tickStatus c == FAILED) : Nat) : Int) >
           (cs.length : Int) - n.successCount then FAILED
       else RUNNING) ∧
    (tickedNode n).nodeStatus = tickStatus n ∧
    (tickedNode n).active = true ∧
    (tickedNode n).children = some (NodeList.ofList (cs.map tickedNode)) ∧
    (cs = [] → 1 ≤ n.successCount → tickStatus n = FAILED) := by
  cases n with
  | mk nm k ch l a w s h sc cb =>
    simp only [Node.kind] at hk
    simp only [Node.children] at hc
    subst hk hc
    have hmain :
        tickNode (Node.mk nm Kind.parallel (some (NodeList.ofList cs)) l a w s h sc cb) =
          (Node.mk nm Kind.parallel (some (NodeList.ofList (cs.map tickedNode))) l true w
            (if ((cs.countP (fun c => tickStatus c == SUCCESS) : Nat) : Int) ≥ sc then SUCCESS
             else if ((cs.countP (fun c => tickStatus c == FAILED) : Nat) : Int) >
                 (cs.length : Int) - sc then FAILED
             else RUNNING) h sc cb,
           (if ((cs.countP (fun c => tickStatus c == SUCCESS) : Nat) : Int) ≥ sc then SUCCESS
            else if ((cs.countP (fun c => tickStatus c == FAILED) : Nat) : Int) >
                (cs.length : Int) - sc then FAILED
            else RUNNING),
           eventsOfAll cs) := by
      rw [tickNode, parallelLoop_ofList]
      simp [Node.setActiveBase, Node.setChildren, Node.setStatus, NodeList.length_ofList,
        ge_iff_le]
    rw [tickStatus, tickedNode, Node.successCount, hmain]
    refine ⟨rfl, ?_, ?_, ?_, ?_⟩
    · simp [Node.nodeStatus]
    · simp [Node.active]
    · simp [Node.children]
    · intro hnil hsc
      subst hnil
      simp only [List.countP_nil, List.length_nil]
      norm_num [FAILED, SUCCESS, RUNNING]
      omega

theorem fallback_tick_spec_witness :
    (wFallback3.kind = .fallback ∧
     wFallback3.children = some (NodeList.ofList ([wCondF] ++ wCondS :: [wActR])) ∧
     wFallback3.hasNot = false ∧
     (∀ p ∈ [wCondF], tickStatus p = FAILED) ∧
     (tickStatus wCondS = SUCCESS ∨ tickStatus wCondS = RUNNING)) ∧
    (tickStatus wFallback3 = tickStatus wCondS ∧
     (tickedNode wFallback3).nodeStatus = tickStatus wCondS ∧
     (tickedNode wFallback3).active = true ∧
     (tickedNode wFallback3).children =
       some (NodeList.ofList ([wCondF].map tickedNode ++ tickedNode wCondS :: [wActR]))) :=
  ⟨⟨rfl, rfl, rfl, by decide, by decide⟩,
   (fallback_tick_spec wFallback3 ([wCondF] ++ wCondS :: [wActR]) rfl rfl rfl).2
     [wCondF] wCondS [wActR] rfl (by decide) (by decide)⟩

theorem sequence_tick_spec_witness :
    (wSequence3.kind = .sequence ∧
     wSequence3.children = some (NodeList.ofList ([wCondS] ++ wCondF :: [wActR])) ∧
     wSequence3.hasNot = false ∧
     (∀ p ∈ [wCondS], tickStatus p = SUCCESS) ∧
     (tickStatus wCondF = RUNNING ∨ tickStatus wCondF = FAILED)) ∧
    (tickStatus wSequence3 = tickStatus wCondF ∧
     (tickedNode wSequence3).nodeStatus = tickStatus wCondF ∧
     (tickedNode wSequence3).active = true ∧
     (tickedNode wSequence3).children =
       some (NodeList.ofList ([wCondS].map tickedNode ++ tickedNode wCondF :: [wActR]))) :=
  ⟨⟨rfl, rfl, rfl, by decide, by decide⟩,
   (sequence_tick_spec wSequence3 ([wCondS] ++ wCondF :: [wActR]) rfl rfl rfl).2
     [wCondS] wCondF [wActR] rfl (by decide) (by decide)⟩

theorem parallel_tick_spec_witness :
    (wParallel3.kind = .parallel ∧
     wParallel3.children = some (NodeList.ofList [wCondS, wCondF, wActR])) ∧
    tickStatus wParallel3 = RUNNING := by
  refine ⟨⟨rfl, rfl⟩, ?_⟩
  have h := (parallel_tick_spec wParallel3 [wCondS, wCondF, wActR] rfl rfl).1
  rw [h]
  decide

mutual
theorem deactivate_events_eq : ∀ n : Node, (deactivateNode n).2 =
    (actionsOf n).flatMap (fun x => x.callbacks.map (fun c => Event.mk c x.name false))
  | .mk nm k ch l a w s h sc cb => by
      cases ch with
      | none =>
          by_cases hk : k = Kind.action
          · subst hk
            simp [deactivateNode, actionsOf, Node.setActiveD, Node.setActiveAction,
              Node.setActiveBase, Node.kind, Node.callbacks, Node.name]
          · simp [deactivateNode, actionsOf, Node.setActiveD, hk, Node.kind,
              Node.setActiveBase]
      | some cs =>
          have hcs := deactivateList_events_eq cs
          by_cases hk : k = Kind.action
          · subst hk
            simp [deactivateNode, actionsOf, Node.setActiveD, Node.setActiveAction,
              Node.setActiveBase, Node.kind, Node.callbacks, Node.name, hcs,
              List.flatMap_append]
          · simp [deactivateNode, actionsOf, Node.setActiveD, hk, Node.kind,
              Node.setActiveBase, hcs]
theorem deactivateList_events_eq : ∀ ns : NodeList, (deactivateList ns).2 =
    (actionsOfList ns).flatMap (fun x => x.callbacks.map (fun c => Event.mk c x.name false))
  | .nil => by simp [deactivateList, actionsOfList]
  | .cons c cs => by
      have h1 := deactivate_events_eq c
      have h2 := deactivateList_events_eq cs
      simp [deactivateList, actionsOfList, h1, h2, List.flatMap_append]
end

/-- C10: every call of the Action setActive override, for either value of the
flag (including the false one performed by deactivate), synchronously invokes
each subscribed callback exactly once, in subscription order, passing the
action node with its already updated active flag; consequently deactivating a
tree fires the callbacks of every action node in it, each observing an
inactive node. -/
theorem action_callback_events_spec :
    (∀ (n : Node) (b : Bool),
        (Node.setActiveAction n b).2 = n.callbacks.map (fun c => Event.mk c n.name b) ∧
        (Node.setActiveAction n b).1.active = b) ∧
    (∀ n : Node, (deactivateNode n).2 =
        (actionsOf n).flatMap (fun x => x.callbacks.map (fun c => Event.mk c x.name false))) := by
  constructor
  · intro n b
    cases n with
    | mk nm k ch l a w s h sc cb =>
        simp [Node.setActiveAction, Node.setActiveBase, Node.callbacks, Node.name,
          Node.active]
  · exact deactivate_events_eq

/-- C6 counterexample: the status accessor of a Condition node is not confined
to FAILED and SUCCESS under arbitrary external updates: storing RUNNING through
setStatus makes both status() and tick() observe RUNNING. -/
theorem condition_status_running_cex :
    (Node.setStatus (conditionNode ("x") false FAILED) RUNNING).status = RUNNING ∧
    ¬ ((Node.setStatus (conditionNode ("x") false FAILED) RUNNING).status = FAILED ∨
       (Node.setStatus (conditionNode ("x") false FAILED) RUNNING).status = SUCCESS) ∧
    tickStatus (Node.setStatus (conditionNode ("x") false FAILED) RUNNING) = RUNNING := by
  decide

/-- C6 amended: provided a Condition node stores FAILED or SUCCESS (as the
factory defaults and every boolean translated update guarantee), the status
observed through status() and tick() is FAILED or SUCCESS and never RUNNING,
and setStatus with a FAILED or SUCCESS argument preserves this. -/
theorem condition_status_spec (n : Node) (hk : n.kind = .condition)
    (hs : n.nodeStatus = FAILED ∨ n.nodeStatus = SUCCESS) :
    (n.status = FAILED ∨ n.status = SUCCESS) ∧
    tickStatus n = n.status ∧
    (tickedNode n).nodeStatus = n.nodeStatus ∧
    (∀ s, (s = FAILED ∨ s = SUCCESS) →
      ((n.setStatus s).nodeStatus = FAILED ∨ (n.setStatus s).nodeStatus = SUCCESS) ∧
      ((n.setStatus s).status = FAILED ∨ (n.setStatus s).status = SUCCESS)) := by
  cases n with
  | mk nm k ch l a w s h sc cb =>
    simp only [Node.kind] at hk
    subst hk
    simp only [Node.nodeStatus] at hs
    refine ⟨?_, ?_, ?_, ?_⟩
    · rcases hs with h1 | h1 <;>
        simp [Node.status, Node.nodeStatus, Node.hasNot, h1, FAILED, SUCCESS]
    · simp [tickStatus, tickNode, Node.setActiveBase, Node.status, Node.nodeStatus,
        Node.hasNot]
    · simp [tickedNode, tickNode, Node.setActiveBase, Node.nodeStatus]
    · intro v hv
      rcases hv with h1 | h1 <;>
        subst h1 <;>
        simp [Node.setStatus, Node.status, Node.nodeStatus, Node.hasNot, FAILED, SUCCESS]

theorem condition_status_spec_witness :
    ((conditionNode ("have hunger") true FAILED).kind = .condition ∧
     ((conditionNode ("have hunger") true FAILED).nodeStatus = FAILED ∨
      (conditionNode ("have hunger") true FAILED).nodeStatus = SUCCESS)) ∧
    ((conditionNode ("have hunger") true FAILED).status = FAILED ∨
     (conditionNode ("have hunger") true FAILED).status = SUCCESS) :=
  ⟨⟨rfl, Or.inl rfl⟩,
   (condition_status_spec (conditionNode ("have hunger") true FAILED) rfl (Or.inl rfl)).1⟩

/-- C7 amended: a space or a tab at a token boundary is skipped without any
effect on the parse, except while a negation marker is pending, in which case
consuming it aborts the parse with the not operator error; so whitespace
between tokens is insignificant everywhere except directly after an
unconsumed negation marker. -/
theorem whitespace_skip_spec :
    (∀ (fuel : Nat) (st : ParseSt) (cs : List Char), st.notPending = false →
        parseLoop (fuel + 1) st (' ' :: cs) = parseLoop fuel st cs ∧
        parseLoop (fuel + 1) st ('\t' :: cs) = parseLoop fuel st cs) ∧
    (∀ (fuel : Nat) (st : ParseSt) (cs : List Char), st.notPending = true →
        parseLoop (fuel + 1) st (' ' :: cs) = onErrorBT st.line notOperatorMsg ∧
        parseLoop (fuel + 1) st ('\t' :: cs) = onErrorBT st.line notOperatorMsg) := by
  constructor <;> intro fuel st cs h <;> exact ⟨by simp [parseLoop, h], by simp [parseLoop, h]⟩

theorem whitespace_skip_spec_witness :
    (parseInit.notPending = false ∧
     parseLoop 1 parseInit [' '] = parseLoop 0 parseInit []) ∧
    ({ parseInit with notPending := true }.notPending = true ∧
     parseLoop 1 { parseInit with notPending := true } [' '] =
       onErrorBT ({ parseInit with notPending := true }).line notOperatorMsg) :=
  ⟨⟨rfl, (whitespace_skip_spec.1 0 parseInit [] rfl).1⟩,
   ⟨rfl, (whitespace_skip_spec.2 0 { parseInit with notPending := true } [] rfl).1⟩⟩

/-- C7 counterexample: whitespace between a negation marker and the following
condition token is not insignificant: the input without the space parses to a
negated condition while the input with the space fails with the not operator
error. -/
theorem whitespace_after_not_cex :
    (parse "!(x)".data).error = none ∧
    (parse "!(x)".data).root =
      some (Node.mk ("x") .condition none (some 1) false false 0 true 0 []) ∧
    (parse "! (x)".data).error = some notOperatorMsg ∧
    (parse "! (x)".data).root = none ∧
    (parse "! (x)".data).line = some 1 :=
  ⟨by decide, rfl, by decide, rfl, by decide⟩

theorem takeUntil_append (s : List Char) (close : Char) (rest : List Char)
    (h : close ∉ s) : takeUntil close (s ++ close :: rest) = some (s, rest) := by
  induction s with
  | nil => simp [takeUntil]
  | cons c cs ih =>
      have hc : ¬ (c = close) := by
        intro hcc
        exact h (by simp [hcc])
      have ih2 := ih (fun hm => h (by simp [hm]))
      simp [takeUntil, hc, ih2]

theorem parseConditionTok_closed (s : List Char) (rest : List Char)
    (h : ')' ∉ s) :
    parseConditionTok (s ++ ')' :: rest) =
      (rest, String.mk (trimChars s), none) := by
  simp [parseConditionTok, takeUntil_append s ( ')' ) rest h]

theorem parseLoop_bang_set (fuel : Nat) (st : ParseSt) (cs : List Char)
    (h : st.notPending = false) :
    parseLoop (fuel + 1) st ('!' :: cs) = parseLoop fuel { st with notPending := true } cs := by
  simp [parseLoop, h]

theorem parseLoop_bang_clear (fuel : Nat) (st : ParseSt) (cs : List Char)
    (h : st.notPending = true) :
    parseLoop (fuel + 1) st ('!' :: cs) = parseLoop fuel { st with notPending := false } cs := by
  simp [parseLoop, h]

theorem parseLoop_lparen_ok (fuel : Nat) (st : ParseSt) (cs rest2 : List Char)
    (nm : String) (h : parseConditionTok cs = (rest2, nm, none)) :
    parseLoop (fuel + 1) st ('(' :: cs) =
      (match pushNode { st with notPending := false }
          ((conditionNode nm st.notPending FAILED).setLine (some (st.line : Int))) with
       | .error e => onErrorBT st.line e
       | .ok st2 =>
            if st2.notPending then onErrorBT st2.line notOperatorMsg
            else parseLoop fuel st2 rest2) := by
  simp [parseLoop, h]

/-- C8 amended: two consecutive negation markers cancel, so a double negated
condition parses as a non negated Condition with the trimmed interior as its
name; a pending negation followed by any further character other than the
start of a Condition token or a second marker makes the parse fail (with the
not operator message when the following token itself is accepted, or with that
token error otherwise); a pending negation at the very end of the input is
silently discarded, exemplified by the trailing marker input that parses
successfully. -/
theorem not_marker_spec :
    (∀ s : List Char, ')' ∉ s →
        parse ('!' :: '!' :: '(' :: (s ++ [ ')' ])) =
          mkTree (some ((conditionNode (String.mk (trimChars s)) false FAILED).setLine
            (some 1))) (some 1) none) ∧
    (∀ c : Char, c ≠ '(' → c ≠ '!' → ∀ rest : List Char,
        (parse ('!' :: c :: rest)).root = none ∧
        (parse ('!' :: c :: rest)).error.isSome = true) ∧
    ((parse "(b)!".data).error = none ∧
     (parse "(b)!".data).root =
       some (Node.mk ("b") .condition none (some 1) false false 0 false 0 [])) := by
  refine ⟨?_, ?_, by decide, rfl⟩
  · intro s hs
    have hlen : ('!' :: '!' :: '(' :: (s ++ [ ')' ])).length + 1 =
        s.length + 1 + 1 + 1 + 1 + 1 := by
      simp
    show parseLoop (('!' :: '!' :: '(' :: (s ++ [ ')' ])).length + 1) parseInit _ = _
    rw [hlen, parseLoop_bang_set _ _ _ rfl, parseLoop_bang_clear _ _ _ rfl,
      parseLoop_lparen_ok _ _ _ _ _ (parseConditionTok_closed s [] hs)]
    simp [pushNode, slotSet, parseLoop, parseInit]
  · intro c hc1 hc2 rest
    have hlen : ('!' :: c :: rest).length + 1 = rest.length + 1 + 1 + 1 := by simp
    have hshow : parse ('!' :: c :: rest) =
        parseLoop (rest.length + 1 + 1 + 1) parseInit ('!' :: c :: rest) := by
      rw [parse, hlen]
    rw [hshow, parseLoop_bang_set _ _ _ rfl]
    rw [parseLoop.eq_def]
    simp only []
    split
    · simp [onErrorBT, mkTree, parseInit]
    · simp [onErrorBT, mkTree, parseInit]
    · split <;> simp [onErrorBT, mkTree, parseInit]
    · simp [onErrorBT, mkTree, parseInit]
    · simp [onErrorBT, mkTree, parseInit]
    · simp_all
    · rcases hq : (parseParallelTok rest).2.2 with _ | e
      · simp [hq, pushNode, slotSet, onErrorBT, mkTree, parseInit]
      · simp [hq, onErrorBT, mkTree, parseInit]
    · simp [pushNode, slotSet, onErrorBT, mkTree, parseInit]
    · rcases hq : (parseSequenceTok rest).2 with _ | e
      · simp [hq, pushNode, slotSet, onErrorBT, mkTree, parseInit]
      · simp [hq, onErrorBT, mkTree, parseInit]
    · simp_all
    · rcases hq : (parseActionTok rest).2.2 with _ | e
      · simp [hq, pushNode, slotSet, onErrorBT, mkTree, parseInit]
      · simp [hq, onErrorBT, mkTree, parseInit]
    · rcases hq : (parseCommentTok rest).2 with _ | e
      · simp [hq, onErrorBT, mkTree, parseInit]
      · simp [hq, onErrorBT, mkTree, parseInit]
    · simp [onErrorBT, mkTree, parseInit]

theorem not_marker_spec_witness :
    (( ')' ) ∉ ['x'] ∧
     parse ('!' :: '!' :: '(' :: (['x'] ++ [ ')' ])) =
       mkTree (some ((conditionNode (String.mk (trimChars ['x'])) false FAILED).setLine
         (some 1))) (some 1) none) ∧
    ((' ' ≠ '(') ∧ (' ' ≠ '!') ∧
     (parse ['!', ' ']).root = none ∧ (parse ['!', ' ']).error.isSome = true) :=
  ⟨⟨by decide, not_marker_spec.1 ['x'] (by decide)⟩,
   ⟨by decide, by decide,
    (not_marker_spec.2.1 (' ') (by decide) (by decide) []).1,
    (not_marker_spec.2.1 (' ') (by decide) (by decide) []).2⟩⟩

/-- C8 counterexample: a pending negation marker that is never consumed by a
Condition token does not necessarily fail the parse: at end of input it is
silently discarded and the parse succeeds, with the negation not applied. -/
theorem trailing_not_cex :
    (parse "(a)!".data).error = none ∧
    (parse "(a)!".data).root =
      some (Node.mk ("a") .condition none (some 1) false false 0 false 0 []) :=
  ⟨by decide, rfl⟩

theorem stripList_split : ∀ (c : Node) (cs : NodeList),
    stripList (.cons c cs) = .cons c cs → stripNode c = c ∧ stripList cs = cs := by
  intro c cs h
  simpa [stripList, NodeList.cons.injEq] using h

theorem stripList_push : ∀ (cs : NodeList) (c : Node),
    stripList cs = cs → stripNode c = c → stripList (cs.push c) = cs.push c
  | .nil, c, _, hc => by simp [NodeList.push, stripList, hc]
  | .cons a as, c, hcs, hc => by
      obtain ⟨ha, has⟩ := stripList_split a as hcs
      simp only [NodeList.push, stripList, NodeList.cons.injEq]
      exact ⟨ha, stripList_push as c has hc⟩

theorem stripList_childAt : ∀ (cs : NodeList) (i : Nat) (c : Node),
    stripList cs = cs → cs.childAt i = some c → stripNode c = c
  | .nil, _, _, _, hat => by simp [NodeList.childAt] at hat
  | .cons a as, 0, c, hcs, hat => by
      simp only [NodeList.childAt, Option.some.injEq] at hat
      rw [← hat]
      exact (stripList_split a as hcs).1
  | .cons a as, i + 1, c, hcs, hat => by
      simp only [NodeList.childAt] at hat
      exact stripList_childAt as i c (stripList_split a as hcs).2 hat

theorem stripList_setChildAt : ∀ (cs : NodeList) (i : Nat) (x : Node),
    stripList cs = cs → stripNode x = x → stripList (cs.setChildAt i x) = cs.setChildAt i x
  | .nil, _, _, _, _ => by simp [NodeList.setChildAt, stripList]
  | .cons a as, 0, x, hcs, hx => by
      simp only [NodeList.setChildAt, stripList, NodeList.cons.injEq]
      exact ⟨hx, (stripList_split a as hcs).2⟩
  | .cons a as, i + 1, x, hcs, hx => by
      obtain ⟨ha, has⟩ := stripList_split a as hcs
      simp only [NodeList.setChildAt, stripList, NodeList.cons.injEq]
      exact ⟨ha, stripList_setChildAt as i x has hx⟩

theorem stripList_of_fixed (nm : String) (k : Kind) (cs : NodeList) (l : Option Int)
    (a w : Bool) (s : Int) (h : Bool) (sc : Int) (cb : List Nat)
    (hr : stripNode (.mk nm k (some cs) l a w s h sc cb) = .mk nm k (some cs) l a w s h sc cb) :
    stripList cs = cs := by
  cases k <;>
    simp [stripNode, fallbackNode, sequenceNode, parallelNode, actionNode, conditionNode,
      Node.setLine, Node.setChildren, Node.mk.injEq] at hr <;>
    tauto

theorem strip_replace_children (nm : String) (k : Kind) (cs X : NodeList) (l : Option Int)
    (a w : Bool) (s : Int) (h : Bool) (sc : Int) (cb : List Nat)
    (hr : stripNode (.mk nm k (some cs) l a w s h sc cb) = .mk nm k (some cs) l a w s h sc cb)
    (hX : stripList X = X) :
    stripNode (.mk nm k (some X) l a w s h sc cb) = .mk nm k (some X) l a w s h sc cb := by
  cases k <;>
    simp [stripNode, fallbackNode, sequenceNode, parallelNode, actionNode, conditionNode,
      Node.setLine, Node.setChildren, Node.mk.injEq, hX] at hr ⊢ <;>
    tauto

theorem strip_appendChildAt : ∀ (p : List Nat) (r c : Node),
    stripNode r = r → stripNode c = c →
    stripNode (appendChildAt r p c) = appendChildAt r p c
  | [], .mk nm k ch l a w s h sc cb, c, hr, hc => by
      cases ch with
      | none => simpa [appendChildAt, updateAtPath, Node.children] using hr
      | some cs =>
          have hcs := stripList_of_fixed nm k cs l a w s h sc cb hr
          simp only [appendChildAt, updateAtPath, Node.children, Node.setChildren]
          exact strip_replace_children nm k cs (cs.push c) l a w s h sc cb hr
            (stripList_push cs c hcs hc)
  | i :: ip, .mk nm k ch l a w s h sc cb, c, hr, hc => by
      cases ch with
      | none => simpa [appendChildAt, updateAtPath, Node.children] using hr
      | some cs =>
          cases hat : cs.childAt i with
          | none => simpa [appendChildAt, updateAtPath, Node.children, hat] using hr
          | some child =>
              have hcs := stripList_of_fixed nm k cs l a w s h sc cb hr
              have hchild := stripList_childAt cs i child hcs hat
              have hrec := strip_appendChildAt ip child c hchild hc
              simp only [appendChildAt, updateAtPath, Node.children, Node.setChildren, hat]
              exact strip_replace_children nm k cs
                (cs.setChildAt i (updateAtPath child ip _)) l a w s h sc cb hr
                (stripList_setChildAt cs i _ hcs hrec)

theorem strip_factory_fallback (l : Option Int) :
    stripNode ((fallbackNode .nil).setLine l) = (fallbackNode .nil).setLine l := rfl

theorem strip_factory_sequence (l : Option Int) :
    stripNode ((sequenceNode .nil).setLine l) = (sequenceNode .nil).setLine l := rfl

theorem strip_factory_parallel (n : Int) (l : Option Int) :
    stripNode ((parallelNode n .nil).setLine l) = (parallelNode n .nil).setLine l := rfl

theorem strip_factory_action (nm : String) (l : Option Int) :
    stripNode ((actionNode nm none RUNNING).setLine l) = (actionNode nm none RUNNING).setLine l := rfl

theorem strip_factory_condition (nm : String) (h : Bool) (l : Option Int) :
    stripNode ((conditionNode nm h FAILED).setLine l) = (conditionNode nm h FAILED).setLine l := rfl

theorem pushNode_fixed (st : ParseSt) (node : Node) (st2 : ParseSt)
    (hok : pushNode st node = .ok st2)
    (hroot : ∀ r, st.root = some r → stripNode r = r)
    (hn : stripNode node = node) :
    (∀ r, st2.root = some r → stripNode r = r) ∧ st2.line = st.line ∧
    st2.notPending = st.notPending := by
  simp only [pushNode] at hok
  split at hok
  · split at hok
    · simp at hok
    · simp only [Except.ok.injEq] at hok
      subst hok
      refine ⟨?_, rfl, rfl⟩
      intro r hrr
      simp only [Option.some.injEq] at hrr
      subst hrr
      exact hn
  · split at hok
    · simp at hok
    · split at hok
      · simp at hok
      · split at hok
        · simp at hok
        · split at hok
          · simp at hok
          · simp only [Except.ok.injEq] at hok
            subst hok
            refine ⟨?_, rfl, rfl⟩
            intro x hx
            simp only [Option.some.injEq] at hx
            subst hx
            exact strip_appendChildAt _ _ node (hroot _ (by assumption)) hn

theorem parseLoop_shape : ∀ (fuel : Nat) (st : ParseSt) (cs : List Char),
    1 ≤ st.line →
    (∀ r, st.root = some r → stripNode r = r) →
    (∃ l e, 1 ≤ l ∧ parseLoop fuel st cs = onErrorBT l e) ∨
    (∃ (r : Node) (l : Nat), 1 ≤ l ∧ stripNode r = r ∧
        parseLoop fuel st cs = mkTree (some r) (some (l : Int)) none) := by
  intro fuel
  induction fuel with
  | zero =>
      intro st cs hl hr
      cases cs with
      | nil =>
          cases hroot : st.root with
          | none => exact Or.inl ⟨st.line, emptyTreeMsg, hl, by simp [parseLoop, hroot, onErrorBT]⟩
          | some r => exact Or.inr ⟨r, st.line, hl, hr r hroot, by simp [parseLoop, hroot]⟩
      | cons c rest => exact Or.inl ⟨st.line, fuelMsg, hl, by simp [parseLoop]⟩
  | succ fuel ih =>
      intro st cs hl hr
      cases cs with
      | nil =>
          cases hroot : st.root with
          | none => exact Or.inl ⟨st.line, emptyTreeMsg, hl, by simp [parseLoop, hroot, onErrorBT]⟩
          | some r => exact Or.inr ⟨r, st.line, hl, hr r hroot, by simp [parseLoop, hroot]⟩
      | cons ch rest =>
          have hstep : ∀ (st2 : ParseSt) (rest2 : List Char), 1 ≤ st2.line →
              (∀ r, st2.root = some r → stripNode r = r) →
              (∃ l e, 1 ≤ l ∧ (if st2.notPending = true then onErrorBT st2.line notOperatorMsg
                  else parseLoop fuel st2 rest2) = onErrorBT l e) ∨
              (∃ (r : Node) (l : Nat), 1 ≤ l ∧ stripNode r = r ∧
                  (if st2.notPending = true then onErrorBT st2.line notOperatorMsg
                    else parseLoop fuel st2 rest2) = mkTree (some r) (some (l : Int)) none) := by
            intro st2 rest2 h1 h2
            by_cases hnp : st2.notPending = true
            · exact Or.inl ⟨st2.line, notOperatorMsg, h1, by simp [hnp]⟩
            · simpa [hnp] using ih st2 rest2 h1 h2
          rw [parseLoop.eq_def]
          simp only []
          split
          · exact hstep st rest hl hr
          · exact hstep st rest hl hr
          · split
            · exact hstep { st with line := st.line + 1, indent := 0 } _
                (Nat.le_succ_of_le hl) hr
            · exact hstep { st with line := st.line + 1, indent := 0 } _
                (Nat.le_succ_of_le hl) hr
          · exact hstep { st with line := st.line + 1, indent := 0 } _
              (Nat.le_succ_of_le hl) hr
          · exact hstep { st with indent := st.indent + 1 } _ hl hr
          · split
            · exact hstep { st with notPending := false } _ hl hr
            · exact ih { st with notPending := true } rest hl hr
          · rcases hq : (parseParallelTok rest).2.2 with _ | e
            · simp only [hq]
              rcases hpn : pushNode st ((parallelNode (parseParallelTok rest).1 .nil).setLine
                  (some (st.line : Int))) with e | st2
              · simp only [hpn]
                exact Or.inl ⟨st.line, e, hl, rfl⟩
              · simp only [hpn]
                obtain ⟨h2, h3, _⟩ := pushNode_fixed st _ st2 hpn hr (strip_factory_parallel _ _)
                exact hstep st2 _ (by rw [h3]; exact hl) h2
            · simp only [hq]
              exact Or.inl ⟨st.line, e, hl, rfl⟩
          · rcases hpn : pushNode st ((fallbackNode .nil).setLine (some (st.line : Int)))
                with e | st2
            · simp only [hpn]
              exact Or.inl ⟨st.line, e, hl, rfl⟩
            · simp only [hpn]
              obtain ⟨h2, h3, _⟩ := pushNode_fixed st _ st2 hpn hr (strip_factory_fallback _)
              exact hstep st2 _ (by rw [h3]; exact hl) h2
          · rcases hq : (parseSequenceTok rest).2 with _ | e
            · simp only [hq]
              rcases hpn : pushNode st ((sequenceNode .nil).setLine (some (st.line : Int)))
                  with e | st2
              · simp only [hpn]
                exact Or.inl ⟨st.line, e, hl, rfl⟩
              · simp only [hpn]
                obtain ⟨h2, h3, _⟩ := pushNode_fixed st _ st2 hpn hr (strip_factory_sequence _)
                exact hstep st2 _ (by rw [h3]; exact hl) h2
            · simp only [hq]
              exact Or.inl ⟨st.line, e, hl, rfl⟩
          · rcases hq : (parseConditionTok rest).2.2 with _ | e
            · simp only [hq]
              rcases hpn : pushNode { st with notPending := false }
                  ((conditionNode (parseConditionTok rest).2.1 st.notPending FAILED).setLine
                    (some (st.line : Int))) with e | st2
              · simp only [hpn]
                exact Or.inl ⟨st.line, e, hl, rfl⟩
              · simp only [hpn]
                obtain ⟨h2, h3, _⟩ := pushNode_fixed _ _ st2 hpn hr
                  (strip_factory_condition _ _ _)
                exact hstep st2 _ (by rw [h3]; exact hl) h2
            · simp only [hq]
              exact Or.inl ⟨st.line, e, hl, rfl⟩
          · rcases hq : (parseActionTok rest).2.2 with _ | e
            · simp only [hq]
              rcases hpn : pushNode st ((actionNode (parseActionTok rest).2.1 none RUNNING).setLine
                  (some (st.line : Int))) with e | st2
              · simp only [hpn]
                exact Or.inl ⟨st.line, e, hl, rfl⟩
              · simp only [hpn]
                obtain ⟨h2, h3, _⟩ := pushNode_fixed st _ st2 hpn hr (strip_factory_action _ _)
                exact hstep st2 _ (by rw [h3]; exact hl) h2
            · simp only [hq]
              exact Or.inl ⟨st.line, e, hl, rfl⟩
          · rcases hq : (parseCommentTok rest).2 with _ | e
            · simp only [hq]
              exact hstep st _ hl hr
            · simp only [hq]
              exact Or.inl ⟨st.line, e, hl, rfl⟩
          · exact Or.inl ⟨st.line, _, hl, rfl⟩

/-- C1: parsing is total and atomic: every input yields a tree value; a failed
parse carries no root, a non null message and a 1 based line, while a
successful parse carries exactly one root node and a null error (with the 1
based line at which scanning stopped). -/
theorem parse_total_atomic (buf : List Char) :
    (∃ (l : Int) (e : String), (parse buf).root = none ∧ (parse buf).error = some e ∧
       (parse buf).line = some l ∧ 1 ≤ l) ∨
    (∃ (r : Node) (l : Int), (parse buf).root = some r ∧ (parse buf).error = none ∧
       (parse buf).line = some l ∧ 1 ≤ l) := by
  have h := parseLoop_shape (buf.length + 1) parseInit buf (by simp [parseInit])
    (fun r hx => by simp [parseInit] at hx)
  rcases h with ⟨l, e, hl, heq⟩ | ⟨r, l, hl, hs, heq⟩
  · left
    refine ⟨(l : Int), e, ?_, ?_, ?_, ?_⟩
    · simp [parse, heq, onErrorBT, mkTree]
    · simp [parse, heq, onErrorBT, mkTree]
    · simp [parse, heq, onErrorBT, mkTree]
    · exact_mod_cast hl
  · right
    refine ⟨subscribeAllNode r, (l : Int), ?_, ?_, ?_, ?_⟩
    · simp [parse, heq, mkTree]
    · simp [parse, heq, mkTree]
    · simp [parse, heq, mkTree]
    · exact_mod_cast hl

mutual
theorem strip_tick : ∀ n : Node, stripNode (tickNode n).1 = stripNode n
  | .mk nm k ch l a w s h sc cb => by
      cases k with
      | fallback =>
          cases ch with
          | some cs =>
              have hcs := strip_fallbackLoop cs
              simp [tickNode, Node.setActiveBase, Node.setChildren, Node.setStatus,
                stripNode, hcs]
          | none => simp [tickNode, Node.setActiveBase, stripNode]
      | sequence =>
          cases ch with
          | some cs =>
              have hcs := strip_seqLoop cs
              simp [tickNode, Node.setActiveBase, Node.setChildren, Node.setStatus,
                stripNode, hcs]
          | none => simp [tickNode, Node.setActiveBase, stripNode]
      | parallel =>
          cases ch with
          | some cs =>
              have hcs := strip_parallelLoop cs
              simp [tickNode, Node.setActiveBase, Node.setChildren, Node.setStatus,
                stripNode, hcs]
          | none => simp [tickNode, Node.setActiveBase, stripNode]
      | action =>
          cases ch <;>
            simp [tickNode, Node.setActiveAction, Node.setActiveBase, stripNode]
      | condition =>
          cases ch <;> simp [tickNode, Node.setActiveBase, stripNode]
theorem strip_fallbackLoop : ∀ cs : NodeList, stripList (fallbackLoop cs).1 = stripList cs
  | .nil => rfl
  | .cons c cs => by
      have h1 := strip_tick c
      have h2 := strip_fallbackLoop cs
      simp only [fallbackLoop]
      split
      · simp [stripList, h1]
      · simp [stripList, h1, h2]
theorem strip_seqLoop : ∀ cs : NodeList, stripList (seqLoop cs).1 = stripList cs
  | .nil => rfl
  | .cons c cs => by
      have h1 := strip_tick c
      have h2 := strip_seqLoop cs
      simp only [seqLoop]
      split
      · simp [stripList, h1]
      · simp [stripList, h1, h2]
theorem strip_parallelLoop : ∀ cs : NodeList, stripList (parallelLoop cs).1 = stripList cs
  | .nil => rfl
  | .cons c cs => by
      have h1 := strip_tick c
      have h2 := strip_parallelLoop cs
      simp [parallelLoop, stripList, h1, h2]
end

mutual
theorem strip_subscribe : ∀ n : Node, stripNode (subscribeAllNode n) = stripNode n
  | .mk nm k ch l a w s h sc cb => by
      cases ch with
      | none => cases k <;> simp [subscribeAllNode, stripNode]
      | some cs =>
          have hcs := strip_subscribeList cs
          cases k <;> simp [subscribeAllNode, stripNode, hcs]
theorem strip_subscribeList : ∀ cs : NodeList,
    stripList (subscribeAllList cs) = stripList cs
  | .nil => rfl
  | .cons c cs => by
      have h1 := strip_subscribe c
      have h2 := strip_subscribeList cs
      simp [subscribeAllList, stripList, h1, h2]
end

mutual
theorem json_round_eq_strip : ∀ n : Node, nodeFromJson (nodeToJson n) = stripNode n
  | .mk nm k ch l a w s h sc cb => by
      cases ch with
      | none => cases k <;> simp [nodeToJson, nodeFromJson, stripNode]
      | some cs =>
          have hcs := jsonList_round_eq_strip cs
          cases k <;> simp [nodeToJson, nodeFromJson, stripNode, hcs]
theorem jsonList_round_eq_strip : ∀ cs : NodeList,
    nodeListFromJson (nodeListToJson cs) = stripList cs
  | .nil => rfl
  | .cons c cs => by
      have h1 := json_round_eq_strip c
      have h2 := jsonList_round_eq_strip cs
      simp [nodeListToJson, nodeListFromJson, stripList, h1, h2]
end

/-- C5: for every text that parses successfully, the snapshot obtained by
ticking the parsed tree and serializing it is reproduced byte for byte by
rebuilding a tree from that snapshot, ticking it and serializing again. -/
theorem parse_tick_round_trip (buf : List Char) (r : Node)
    (h : (parse buf).root = some r) :
    treeToJson (treeTick (treeFromJson (treeToJson (treeTick (parse buf)).1))).1 =
      treeToJson (treeTick (parse buf)).1 := by
  have hs := parseLoop_shape (buf.length + 1) parseInit buf (by simp [parseInit])
    (fun x hx => by simp [parseInit] at hx)
  rcases hs with ⟨l, e, hl, heq⟩ | ⟨r0, l, hl, hfix, heq⟩
  · exfalso
    rw [parse] at h
    rw [heq] at h
    simp [onErrorBT, mkTree] at h
  · have hp : parse buf = mkTree (some r0) (some (l : Int)) none := heq
    rw [hp]
    have hkey : nodeFromJson (nodeToJson (tickNode (subscribeAllNode r0)).1) = r0 := by
      rw [json_round_eq_strip, strip_tick, strip_subscribe, hfix]
    simp [treeTick, treeToJson, treeFromJson, mkTree, hkey]

theorem parse_tick_round_trip_witness :
    ((parse ['?']).root =
      some (Node.mk ("?") .fallback (some .nil) (some 1) false false 0 false 0 [])) ∧
    (treeToJson (treeTick (treeFromJson (treeToJson (treeTick (parse ['?'])).1))).1 =
      treeToJson (treeTick (parse ['?'])).1) :=
  ⟨rfl, parse_tick_round_trip ['?'] _ rfl⟩

theorem lookup_cons_pair (name ek : String) (ev : List (List Nat))
    (es : List (String × List (List Nat))) :
    List.lookup name ((ek, ev) :: es) = if name = ek then some ev else List.lookup name es := by
  by_cases h : name = ek
  · subst h
    simp [List.lookup]
  · have hb : (name == ek) = false := beq_eq_false_iff_ne.mpr h
    simp [List.lookup, hb, h]

theorem lookup_map_update (m : List (String × List (List Nat))) (k0 : String)
    (v : List Nat) (name : String) :
    ((m.map (fun e => if e.1 = k0 then (e.1, e.2 ++ [v]) else e)).lookup name) =
      if name = k0 then (m.lookup k0).map (fun l => l ++ [v]) else m.lookup name := by
  induction m with
  | nil => by_cases h : name = k0 <;> simp [h]
  | cons e es ih =>
      obtain ⟨ek, ev⟩ := e
      by_cases h1 : ek = k0
      · subst h1
        by_cases h2 : name = ek
        · subst h2
          simp [lookup_cons_pair, ih]
        · simp [lookup_cons_pair, h2, ih]
      · have h1x : ¬ k0 = ek := fun hh => h1 hh.symm
        by_cases h2 : name = ek
        · subst h2
          simp [lookup_cons_pair, h1, ih]
        · simp [lookup_cons_pair, h1, h2, h1x, ih]

theorem lookup_append_single (m : List (String × List (List Nat))) (k0 : String)
    (v : List Nat) (name : String) :
    ((m ++ [(k0, [v])]).lookup name) =
      match m.lookup name with
      | some l => some l
      | none => if name = k0 then some [v] else none := by
  induction m with
  | nil => by_cases h : name = k0 <;> simp [lookup_cons_pair, h]
  | cons e es ih =>
      obtain ⟨ek, ev⟩ := e
      by_cases h2 : name = ek
      · subst h2
        simp [lookup_cons_pair, ih]
      · simp [lookup_cons_pair, h2, ih]

theorem lookup_addToArrayMap (m : List (String × List (List Nat))) (k0 : String)
    (v : List Nat) (name : String) :
    ((addToArrayMap m k0 v).lookup name) =
      if name = k0 then some ((m.lookup k0).getD [] ++ [v])
      else m.lookup name := by
  unfold addToArrayMap
  cases hk : m.lookup k0 with
  | some l0 =>
      simp only [hk, Option.isSome_some, if_true]
      rw [lookup_map_update]
      by_cases h : name = k0 <;> simp [h, hk]
  | none =>
      simp only [hk, Option.isSome_none, Bool.false_eq_true, if_false]
      rw [lookup_append_single]
      by_cases h : name = k0
      · subst h
        simp [hk]
      · simp only [if_neg h]
        cases m.lookup name <;> simp

theorem lookup_buildMap (entries : List (String × List Nat)) (name : String) :
    ∀ m : List (String × List (List Nat)),
    ((entries.foldl (fun acc e => addToArrayMap acc e.1 e.2) m).lookup name) =
      (match m.lookup name with
       | some l0 => some (l0 ++ pathsFilter name entries)
       | none =>
           if pathsFilter name entries = [] then none
           else some (pathsFilter name entries)) := by
  induction entries with
  | nil =>
      intro m
      cases h : m.lookup name <;> simp [pathsFilter, h]
  | cons e es ih =>
      intro m
      obtain ⟨ek, ev⟩ := e
      simp only [List.foldl_cons]
      rw [ih]
      rw [lookup_addToArrayMap]
      by_cases h : name = ek
      · subst h
        cases hm : m.lookup name with
        | some l0 =>
            simp [pathsFilter, hm, List.filter_cons, List.append_assoc]
        | none =>
            simp [pathsFilter, hm, List.filter_cons]
      · have hb : ((ek, ev).1 == name) = false := beq_eq_false_iff_ne.mpr (fun hh => h hh.symm)
        have hfilter : List.filter (fun e => e.1 == name) ((ek, ev) :: es) =
            List.filter (fun e => e.1 == name) es := by
          simp [List.filter_cons, hb]
        cases hm : m.lookup name with
        | none =>
            simp only [pathsFilter, hm, h, if_false, List.map_cons, hfilter]
        | some l0 =>
            simp [pathsFilter, hm, hfilter, h]

theorem setChildAt_self : ∀ (cs : NodeList) (i : Nat) (c : Node),
    cs.childAt i = some c → cs.setChildAt i c = cs
  | .nil, i, c, h => by simp [NodeList.childAt] at h
  | .cons a as, 0, c, h => by
      simp only [NodeList.childAt, Option.some.injEq] at h
      simp [NodeList.setChildAt, h]
  | .cons a as, i + 1, c, h => by
      simp only [NodeList.childAt] at h
      simp [NodeList.setChildAt, setChildAt_self as i c h]

theorem childAt_setChildAt_same : ∀ (cs : NodeList) (i : Nat) (x c : Node),
    cs.childAt i = some c → (cs.setChildAt i x).childAt i = some x
  | .nil, i, x, c, h => by simp [NodeList.childAt] at h
  | .cons a as, 0, x, c, h => by simp [NodeList.setChildAt, NodeList.childAt]
  | .cons a as, i + 1, x, c, h => by
      simp only [NodeList.childAt] at h
      simp [NodeList.setChildAt, NodeList.childAt, childAt_setChildAt_same as i x c h]

theorem setChildAt_setChildAt : ∀ (cs : NodeList) (i : Nat) (x y : Node),
    (cs.setChildAt i x).setChildAt i y = cs.setChildAt i y
  | .nil, _, _, _ => rfl
  | .cons a as, 0, x, y => by simp [NodeList.setChildAt]
  | .cons a as, i + 1, x, y => by
      simp [NodeList.setChildAt, setChildAt_setChildAt as i x y]

theorem childAt_appendL_len : ∀ (pre : NodeList) (c : Node) (rest : NodeList),
    (pre.appendL (.cons c rest)).childAt pre.length = some c
  | .nil, c, rest => rfl
  | .cons x xs, c, rest => by
      simp [NodeList.appendL, NodeList.length, NodeList.childAt, childAt_appendL_len xs c rest]

theorem setChildAt_appendL_len : ∀ (pre : NodeList) (c x : Node) (rest : NodeList),
    (pre.appendL (.cons c rest)).setChildAt pre.length x = pre.appendL (.cons x rest)
  | .nil, c, x, rest => rfl
  | .cons y ys, c, x, rest => by
      simp [NodeList.appendL, NodeList.length, NodeList.setChildAt,
        setChildAt_appendL_len ys c x rest]

theorem appendL_snoc_cons : ∀ (pre : NodeList) (x : Node) (cs : NodeList),
    (pre.appendL (.cons x .nil)).appendL cs = pre.appendL (.cons x cs)
  | .nil, x, cs => rfl
  | .cons y ys, x, cs => by
      simp [NodeList.appendL, appendL_snoc_cons ys x cs]

theorem length_appendL_snoc : ∀ (pre : NodeList) (x : Node),
    (pre.appendL (.cons x .nil)).length = pre.length + 1
  | .nil, x => rfl
  | .cons y ys, x => by
      simp [NodeList.appendL, NodeList.length, length_appendL_snoc ys x]

theorem applyStatusPaths_append (status : Int) (A B : List (List Nat)) (t : Node) :
    applyStatusPaths status (A ++ B) t = applyStatusPaths status B (applyStatusPaths status A t) := by
  simp [applyStatusPaths, List.foldl_append]

theorem pathsFilter_append (name : String) (A B : List (String × List Nat)) :
    pathsFilter name (A ++ B) = pathsFilter name A ++ pathsFilter name B := by
  simp [pathsFilter, List.filter_append]

theorem pathsFilter_mapPrefix (name : String) (i : Nat) (entries : List (String × List Nat)) :
    pathsFilter name (entries.map (fun e => (e.1, i :: e.2))) =
      (pathsFilter name entries).map (fun p => i :: p) := by
  simp [pathsFilter, List.filter_map, List.map_map]
  rfl

theorem applyStatusPaths_prefixed (status : Int) : ∀ (ps : List (List Nat)) (nm : String)
    (k : Kind) (cs : NodeList) (l : Option Int) (a w : Bool) (s : Int) (h : Bool)
    (sc : Int) (cb : List Nat) (i : Nat) (child : Node),
    cs.childAt i = some child →
    applyStatusPaths status (ps.map (fun p => i :: p)) (.mk nm k (some cs) l a w s h sc cb) =
      .mk nm k (some (cs.setChildAt i (applyStatusPaths status ps child))) l a w s h sc cb := by
  intro ps
  induction ps with
  | nil =>
      intro nm k cs l a w s h sc cb i child hat
      simp [applyStatusPaths, setChildAt_self cs i child hat]
  | cons p ps ih =>
      intro nm k cs l a w s h sc cb i child hat
      have hstep : updateAtPath (.mk nm k (some cs) l a w s h sc cb) (i :: p)
          (fun c => c.setStatus status) =
          .mk nm k (some (cs.setChildAt i (updateAtPath child p (fun c => c.setStatus status))))
            l a w s h sc cb := by
        simp [updateAtPath, Node.children, hat, Node.setChildren]
      simp only [List.map_cons, applyStatusPaths, List.foldl_cons]
      rw [hstep]
      have := ih nm k (cs.setChildAt i (updateAtPath child p (fun c => c.setStatus status)))
        l a w s h sc cb i (updateAtPath child p (fun c => c.setStatus status))
        (childAt_setChildAt_same cs i _ child hat)
      simp only [applyStatusPaths] at this
      rw [this, setChildAt_setChildAt]

mutual
theorem kindEntries_base (k0 : Kind) : ∀ (n : Node) (base : List Nat),
    kindEntries k0 n base = (kindEntries k0 n []).map (fun e => (e.1, base ++ e.2))
  | .mk nm k ch l a w s h sc cb, base => by
      cases ch with
      | none => by_cases hk : k = k0 <;> simp [kindEntries, hk]
      | some cs =>
          have h1 := kindEntriesList_base k0 cs base 0
          by_cases hk : k = k0 <;>
            simp [kindEntries, hk, h1, List.map_map, Function.comp, List.map_append]
theorem kindEntriesList_base (k0 : Kind) : ∀ (cs : NodeList) (base : List Nat) (i : Nat),
    kindEntriesList k0 cs base i = (kindEntriesList k0 cs [] i).map (fun e => (e.1, base ++ e.2))
  | .nil, base, i => by simp [kindEntriesList]
  | .cons c cs, base, i => by
      have h1 := kindEntries_base k0 c (base ++ [i])
      have h2 := kindEntries_base k0 c [i]
      have h3 := kindEntriesList_base k0 cs base (i + 1)
      simp [kindEntriesList, h1, h2, h3, List.map_map, Function.comp, List.append_assoc,
        List.map_append]
end

mutual
theorem applyPaths_node (k0 : Kind) (name : String) (status : Int) :
    ∀ n : Node,
    applyStatusPaths status (pathsFilter name (kindEntries k0 n [])) n =
      kindSetAll k0 name status n
  | .mk nm k ch l a w s h sc cb => by
      cases ch with
      | none =>
          by_cases hk : k = k0
          · by_cases hnm : nm = name
            · simp [kindEntries, kindSetAll, pathsFilter, applyStatusPaths, updateAtPath,
                Node.setStatus, hk, hnm, beq_iff_eq]
            · simp [kindEntries, kindSetAll, pathsFilter, applyStatusPaths,
                hk, hnm, beq_iff_eq, beq_eq_false_iff_ne.mpr hnm]
          · simp [kindEntries, kindSetAll, pathsFilter, applyStatusPaths, hk]
      | some cs =>
          have hlist := applyPaths_list k0 name status cs .nil nm k l a w
            (if k = k0 ∧ nm = name then status else s) h sc cb
          simp only [NodeList.length, NodeList.appendL] at hlist
          by_cases hk : k = k0
          · by_cases hnm : nm = name
            · rw [kindEntries, if_pos hk, pathsFilter_append, applyStatusPaths_append]
              have hself : applyStatusPaths status (pathsFilter name [(nm, [])])
                  (Node.mk nm k (some cs) l a w s h sc cb) =
                  Node.mk nm k (some cs) l a w status h sc cb := by
                simp [pathsFilter, applyStatusPaths, updateAtPath, Node.setStatus, hnm,
                  beq_iff_eq]
              rw [hself]
              rw [if_pos ⟨hk, hnm⟩] at hlist
              rw [hlist]
              simp only [kindSetAll, if_pos (And.intro hk hnm)]
            · rw [kindEntries, if_pos hk, pathsFilter_append, applyStatusPaths_append]
              have hself : applyStatusPaths status (pathsFilter name [(nm, [])])
                  (Node.mk nm k (some cs) l a w s h sc cb) =
                  Node.mk nm k (some cs) l a w s h sc cb := by
                simp [pathsFilter, applyStatusPaths, beq_eq_false_iff_ne.mpr hnm]
              rw [hself]
              rw [if_neg (fun hand => hnm hand.2)] at hlist
              rw [hlist]
              simp only [kindSetAll, if_neg (fun hand => hnm (And.right hand))]
          · rw [kindEntries, if_neg hk, List.nil_append]
            rw [if_neg (fun hand => hk hand.1)] at hlist
            rw [hlist]
            simp only [kindSetAll, if_neg (fun hand => hk (And.left hand))]
theorem applyPaths_list (k0 : Kind) (name : String) (status : Int) :
    ∀ (cs : NodeList) (pre : NodeList) (nm : String) (k : Kind) (l : Option Int)
      (a w : Bool) (s : Int) (h : Bool) (sc : Int) (cb : List Nat),
    applyStatusPaths status (pathsFilter name (kindEntriesList k0 cs [] pre.length))
        (.mk nm k (some (pre.appendL cs)) l a w s h sc cb) =
      .mk nm k (some (pre.appendL (kindSetAllList k0 name status cs))) l a w s h sc cb
  | .nil, pre, nm, k, l, a, w, s, h, sc, cb => by
      simp [kindEntriesList, pathsFilter, applyStatusPaths, kindSetAllList]
  | .cons c cs', pre, nm, k, l, a, w, s, h, sc, cb => by
      have hc := applyPaths_node k0 name status c
      rw [kindEntriesList]
      rw [pathsFilter_append, applyStatusPaths_append]
      have hP1 : pathsFilter name (kindEntries k0 c ([] ++ [pre.length])) =
          (pathsFilter name (kindEntries k0 c [])).map (fun p => pre.length :: p) := by
        rw [List.nil_append, kindEntries_base k0 c [pre.length]]
        have := pathsFilter_mapPrefix name pre.length (kindEntries k0 c [])
        simpa using this
      rw [hP1]
      rw [applyStatusPaths_prefixed status _ nm k (pre.appendL (.cons c cs')) l a w s h sc cb
        pre.length c (childAt_appendL_len pre c cs')]
      rw [hc]
      rw [setChildAt_appendL_len]
      have hih := applyPaths_list k0 name status cs'
        (pre.appendL (.cons (kindSetAll k0 name status c) .nil)) nm k l a w s h sc cb
      rw [length_appendL_snoc, appendL_snoc_cons, appendL_snoc_cons] at hih
      rw [hih]
      rw [kindSetAllList]
end

theorem pathsFilter_eq_nil_of_absent (name : String) (entries : List (String × List Nat))
    (h : ∀ e ∈ entries, e.1 ≠ name) : pathsFilter name entries = [] := by
  unfold pathsFilter
  rw [List.filter_eq_nil_iff.mpr]
  · rfl
  · intro e he
    simpa [beq_iff_eq] using h e he

theorem lookup_conditions_char (r : Node) (k0 : Kind) (name : String) :
    (buildMap (kindEntries k0 r [])).lookup name =
      (if pathsFilter name (kindEntries k0 r []) = [] then none
       else some (pathsFilter name (kindEntries k0 r []))) := by
  unfold buildMap
  rw [lookup_buildMap]
  simp

/-- C9: the name indexed status setters update the stored status of every
Condition (respectively Action) node bearing the name, leaving every other
node untouched (the recursive update kindSetAll); on a name with no registered
node of that kind the setter returns the tree unchanged and the getter returns
the sentinel. The hypotheses state that the registries are the ones the
constructor extracted from the root, as holds for every tree the program
builds. -/
theorem set_get_by_name_spec (bt : BehaviorTree) (r : Node) (name : String) (s : Int)
    (hroot : bt.root = some r)
    (hc : bt.conditions = buildMap (kindEntries .condition r []))
    (ha : bt.actions = buildMap (kindEntries .action r [])) :
    ((bt.setConditionStatus name s).root = some (kindSetAll .condition name s r)) ∧
    ((bt.setActionStatus name s).root = some (kindSetAll .action name s r)) ∧
    ((∀ e ∈ kindEntries .condition r [], e.1 ≠ name) →
        bt.setConditionStatus name s = bt ∧ bt.getConditionStatus name = -1) ∧
    ((∀ e ∈ kindEntries .action r [], e.1 ≠ name) →
        bt.setActionStatus name s = bt ∧ bt.getActionStatus name = -1) := by
  have hmainC := applyPaths_node .condition name s r
  have hmainA := applyPaths_node .action name s r
  refine ⟨?_, ?_, ?_, ?_⟩
  · unfold BehaviorTree.setConditionStatus
    rw [hc, lookup_conditions_char]
    by_cases hF : pathsFilter name (kindEntries .condition r []) = []
    · rw [if_pos hF]
      rw [hF] at hmainC
      simp only [applyStatusPaths, List.foldl_nil] at hmainC
      rw [hroot, ← hmainC]
    · rw [if_neg hF]
      simp only [hroot, Option.map_some']
      exact congrArg some hmainC
  · unfold BehaviorTree.setActionStatus
    rw [ha, lookup_conditions_char]
    by_cases hF : pathsFilter name (kindEntries .action r []) = []
    · rw [if_pos hF]
      rw [hF] at hmainA
      simp only [applyStatusPaths, List.foldl_nil] at hmainA
      rw [hroot, ← hmainA]
    · rw [if_neg hF]
      simp only [hroot, Option.map_some']
      exact congrArg some hmainA
  · intro habs
    have hF := pathsFilter_eq_nil_of_absent name _ habs
    constructor
    · unfold BehaviorTree.setConditionStatus
      rw [hc, lookup_conditions_char, if_pos hF]
    · unfold BehaviorTree.getConditionStatus
      rw [hc, lookup_conditions_char, if_pos hF]
  · intro habs
    have hF := pathsFilter_eq_nil_of_absent name _ habs
    constructor
    · unfold BehaviorTree.setActionStatus
      rw [ha, lookup_conditions_char, if_pos hF]
    · unfold BehaviorTree.getActionStatus
      rw [ha, lookup_conditions_char, if_pos hF]

theorem set_get_by_name_spec_witness :
    ((parse wParseBuf).root = some wParseRoot ∧
     (parse wParseBuf).conditions = buildMap (kindEntries .condition wParseRoot []) ∧
     (parse wParseBuf).actions = buildMap (kindEntries .action wParseRoot [])) ∧
    ((parse wParseBuf).setConditionStatus ("a") SUCCESS).root =
      some (kindSetAll .condition ("a") SUCCESS wParseRoot) :=
  ⟨⟨rfl, by decide, by decide⟩,
   (set_get_by_name_spec (parse wParseBuf) wParseRoot ("a") SUCCESS rfl (by decide)
     (by decide)).1⟩
